import Mathlib

/-!
Verification development for `packageJson` (depInfo.go).

Shallow embedding of `newDependencyInfo` and `SatisfyWorskpaceDep`.

Modelling conventions
* Go strings are embedded as Lean `String`s (sequences of Unicode scalar values). Every
  byte the code inspects (`:` and `/`, the glob metacharacters) is ASCII, so on valid
  UTF-8 the byte-wise Go operations and the character-wise Lean ones coincide.
* A Go `map[string]string` is an association list read with `List.lookup`.
* Go `error` values are the trees of `GoError`; `nil` is `none`.
* Paths follow the Unix flavour of `path/filepath` (separator `/`, no volume names).
-/

set_option autoImplicit false

/-! ## Data model -/

/-- The struct `PackageJsonDepInfo` of depInfo.go. -/
structure PackageJsonDepInfo where
  Name : String
  VersionRange : String
  Key : String
  Protocol : String
  FromName : String
  FromVersion : String
  FromFile : String
  deriving DecidableEq, Repr

/-- The zero value `PackageJsonDepInfo{}`. -/
def PackageJsonDepInfo.zero : PackageJsonDepInfo :=
  { Name := "", VersionRange := "", Key := "", Protocol := "",
    FromName := "", FromVersion := "", FromFile := "" }

/-- Modelled from the spec: the declaration of the `PackageJSON` type is not part of the
sources at hand; these are the fields that `newDependencyInfo` and `SatisfyWorskpaceDep`
read (the manifest view of the data model: name, version, directory, file path and the
four dependency mappings). -/
structure PackageJSON where
  Name : String
  Version : String
  Dir : String
  file : String
  Dependencies : List (String × String)
  DevDependencies : List (String × String)
  OptionalDependencies : List (String × String)
  PeerDependencies : List (String × String)
  deriving DecidableEq, Repr

/-! ## `strings.Split` and `strings.Join` for a one-character separator -/

namespace strings

/-- Character-level `strings.Split(s, sep)` for a separator of one character: the pieces
between consecutive separators, always at least one piece. -/
def splitChars (sep : Char) : List Char → List (List Char)
  | [] => [[]]
  | c :: cs =>
    if c = sep then [] :: splitChars sep cs
    else
      match splitChars sep cs with
      | [] => [[c]]
      | h :: t => (c :: h) :: t

/-- Character-level `strings.Join(parts, sep)`. -/
def joinChars (sep : Char) : List (List Char) → List Char
  | [] => []
  | [a] => a
  | a :: b :: rest => a ++ sep :: joinChars sep (b :: rest)

/-- Go `strings.Split(s, string(sep))`. -/
def Split (s : String) (sep : Char) : List String :=
  (splitChars sep s.data).map String.mk

/-- Go `strings.Join(parts, string(sep))`. -/
def Join (parts : List String) (sep : Char) : String :=
  String.mk (joinChars sep (parts.map String.data))

/-- Go `strings.Contains(s, string(c))`. -/
def Contains (s : String) (c : Char) : Prop := c ∈ s.data

instance (s : String) (c : Char) : Decidable (Contains s c) := by
  unfold Contains; infer_instance

end strings

/-! ## `newDependencyInfo` -/

/-- The cascade of map probes at the top of `newDependencyInfo`: the key of the first
mapping that holds `moduleName` together with the raw specifier found there. -/
def lookupDependency (p : PackageJSON) (moduleName : String) : Option (String × String) :=
  match p.Dependencies.lookup moduleName with
  | some depVal => some ("dependencies", depVal)
  | none =>
    match p.DevDependencies.lookup moduleName with
    | some depVal => some ("devDependencies", depVal)
    | none =>
      match p.OptionalDependencies.lookup moduleName with
      | some depVal => some ("optionalDependencies", depVal)
      | none =>
        match p.PeerDependencies.lookup moduleName with
        | some depVal => some ("peerDependencies", depVal)
        | none => none

/-- The function `newDependencyInfo` of depInfo.go (exposed as `GetDepencyInfoFor`). -/
def newDependencyInfo (p : PackageJSON) (moduleName : String) : PackageJsonDepInfo × Bool :=
  match lookupDependency p moduleName with
  | none => (PackageJsonDepInfo.zero, false)
  | some (depKey, depVal) =>
    let i : PackageJsonDepInfo :=
      { PackageJsonDepInfo.zero with
        Name := moduleName, Key := depKey,
        FromName := p.Name, FromVersion := p.Version, FromFile := p.file }
    let parts := strings.Split depVal ':'
    if parts.length = 1 then
      ({ i with VersionRange := parts.headD "" }, true)
    else
      ({ i with Protocol := parts.headD "", VersionRange := strings.Join parts.tail ':' }, true)

/-- Name `n` is a key of the mapping `m`. -/
def hasKey (m : List (String × String)) (n : String) : Prop := n ∈ m.map Prod.fst

instance (m : List (String × String)) (n : String) : Decidable (hasKey m n) := by
  unfold hasKey; infer_instance

/-! ## Errors -/

/-- Go `error` values: `errors.New(msg)` and the result of `fmt.Errorf` with one `%w`
verb, which carries its formatted message and the error it wraps. -/
inductive GoError where
  | new (msg : String)
  | wrap (msg : String) (err : GoError)
  deriving DecidableEq, Repr

/-- The method `Error()`: the message of an error. -/
def GoError.Error : GoError → String
  | .new msg => msg
  | .wrap msg _ => msg

/-- The method `Unwrap()`: the wrapped error, if any. -/
def GoError.Unwrap : GoError → Option GoError
  | .new _ => none
  | .wrap _ err => some err

namespace errors

/-- Go `errors.Is(err, target)`: `target` occurs in the chain of `err`. The sentinel
errors of the package have pairwise distinct messages, so structural equality of trees
agrees with the identity comparison Go performs on them. -/
def Is : GoError → GoError → Bool
  | .new msg, target => decide (GoError.new msg = target)
  | .wrap msg err, target => decide (GoError.wrap msg err = target) || Is err target

end errors

namespace fmt

/-- Go `fmt.Errorf(format, err, ...)` where `format` starts with the verb `%w` and
`rest` is the formatted remainder of the message. -/
def Errorf (err : GoError) (rest : String) : GoError :=
  .wrap (err.Error ++ rest) err

end fmt

def ErrSatisfaction : GoError := .new "SatisfyWorskpaceDep failed: "
def ErrMismatchName : GoError := fmt.Errorf ErrSatisfaction "package name mismatch"
def ErrMismatchPath : GoError :=
  fmt.Errorf ErrSatisfaction "package path mismatch dependency path"
def ErrParseVersion : GoError := fmt.Errorf ErrSatisfaction "package version check failed"
def ErrMissingWorkspaceInfo : GoError :=
  fmt.Errorf ErrSatisfaction
    "cannot satisfy workspace protocol dependency without a workspace directory"
def ErrOutsideWokspace : GoError :=
  fmt.Errorf ErrSatisfaction "can't satisfy a dependency being outside workspace"
def ErrRemoteProtocol : GoError := fmt.Errorf ErrSatisfaction "cannot satisfy remote protocol"

/-! ## `path/filepath` (Unix) -/

namespace filepath

/-- Go `filepath.IsAbs` on Unix: the path starts with the separator. -/
def IsAbs (path : String) : Bool := path.data.head? = some '/'

/-- The backward scan of the `..` case of `Clean`: starting from write index `w`, step
back while `w > dotdot` and the buffered character at `w` is not a separator. -/
def backUp (out : List Char) (dotdot : Nat) : Nat → Nat
  | 0 => 0
  | w + 1 =>
    if dotdot < w + 1 ∧ out.getD (w + 1) ' ' ≠ '/' then backUp out dotdot w else w + 1

/-- The main loop of Go `filepath.Clean`. `out` is the content of the output buffer (its
length is the write index `w`), `dotdot` the index where `..` must stop. The flag
`copying` is set while the inner loop that copies a real path element is running. -/
def cleanLoop (rooted : Bool) : Bool → List Char → List Char → Nat → List Char
  | _, [], out, _ => out
  | true, c :: rest, out, dotdot =>
    if c = '/' then cleanLoop rooted false rest out dotdot
    else cleanLoop rooted true rest (out ++ [c]) dotdot
  | false, [c], out, _ =>
    if c = '/' then out
    else if c = '.' then out
    else
      (if (rooted && out.length != 1) || (!rooted && out.length != 0)
        then out ++ ['/'] else out) ++ [c]
  | false, c :: d :: rest2, out, dotdot =>
    if c = '/' then
      -- empty path element
      cleanLoop rooted false (d :: rest2) out dotdot
    else if c = '.' ∧ d = '/' then
      -- . element
      cleanLoop rooted false (d :: rest2) out dotdot
    else if c = '.' ∧ d = '.' ∧ (rest2 = [] ∨ rest2.head? = some '/') then
      -- .. element: remove to last separator
      if dotdot < out.length then
        cleanLoop rooted false rest2 (out.take (backUp out dotdot (out.length - 1))) dotdot
      else if !rooted then
        let out2 := (if 0 < out.length then out ++ ['/'] else out) ++ ['.', '.']
        cleanLoop rooted false rest2 out2 out2.length
      else cleanLoop rooted false rest2 out dotdot
    else
      -- real path element: add slash if needed, then copy the element
      cleanLoop rooted true (d :: rest2)
        ((if (rooted && out.length != 1) || (!rooted && out.length != 0)
          then out ++ ['/'] else out) ++ [c]) dotdot

/-- Character-level `filepath.Clean`. -/
def cleanChars (path : List Char) : List Char :=
  match path with
  | [] => ['.']
  | c :: rest =>
    let out :=
      if c = '/' then cleanLoop true false rest ['/'] 1
      else cleanLoop false false path [] 0
    if out.length = 0 then ['.'] else out

/-- Go `filepath.Clean`. -/
def Clean (path : String) : String := String.mk (cleanChars path.data)

/-- Go `filepath.Join` for two elements: empty leading elements are ignored and the
rest, joined with the separator, is cleaned. -/
def Join (a b : String) : String :=
  if a ≠ "" then Clean (a ++ "/" ++ b)
  else if b ≠ "" then Clean b
  else ""

/-- The part of a path up to and including its last separator. -/
def dirChars (path : List Char) : List Char :=
  (path.reverse.dropWhile (fun c => c != '/')).reverse

/-- Go `filepath.Dir`. -/
def Dir (path : String) : String := Clean (String.mk (dirChars path.data))

/-- Go `filepath.Abs` on Unix; `getwd` is the outcome of `os.Getwd()`. -/
def Abs (getwd : Except GoError String) (path : String) : Except GoError String :=
  if IsAbs path then .ok (Clean path)
  else
    match getwd with
    | .error err => .error err
    | .ok wd => .ok (Join wd path)

end filepath

/-! ## `doublestar.Match` (third-party glob matcher, separator `/`)

The matcher of `github.com/bmatcuk/doublestar/v4`, which the membership check calls, is
not part of the repository. It is embedded here after its iterative algorithm: one
function for one turn of the matching loop, and a driver that repeats it. Backtrack
indices that the library keeps as `-1` or an index are `Option`s. -/

namespace doublestar

/-- The error `ErrBadPattern` (the same value as `path.ErrBadPattern`). -/
def ErrBadPattern : GoError := .new "syntax error in pattern"

/-- The rune `utf8.RuneError`, which decoding an empty string yields. -/
def runeError : Char := Char.ofNat 0xFFFD

/-- The rune `utf8.MaxRune` as a number. -/
def maxRune : Nat := 0x10FFFF

/-- The function `doValidatePattern`, scanning the pattern left to right. `altDepth` is
the number of alternatives currently open. -/
def validateLoop : List Char → Nat → Bool → Bool
  -- third argument: inside a character class, past its first member
  | [], altDepth, false => altDepth == 0
  | [], _, true => false
  | c :: rest, altDepth, true =>
    if c = '\\' then
      match rest with
      | [] => false
      | _ :: rest2 => validateLoop rest2 altDepth true
    else if c = ']' then validateLoop rest altDepth false
    else validateLoop rest altDepth true
  | c :: rest, altDepth, false =>
    if c = '\\' then
      match rest with
      | [] => false
      | _ :: rest2 => validateLoop rest2 altDepth false
    else if c = '[' then
      match rest with
      | [] => false
      | d :: rest2 =>
        if d = '^' ∨ d = '!' then
          match rest2 with
          | [] => false
          | e :: _ => if e = ']' then false else validateLoop rest2 altDepth true
        else if d = ']' then false
        else validateLoop (d :: rest2) altDepth true
    else if c = '{' then validateLoop rest (altDepth + 1) false
    else if c = '}' then
      if altDepth = 0 then false else validateLoop rest (altDepth - 1) false
    else validateLoop rest altDepth false

/-- The function `doValidatePattern` for the separator `/`. -/
def doValidatePattern (s : List Char) : Bool := validateLoop s 0 false

/-- The function `indexMatchedClosingAlt`: index of the `}` that closes the alternative
opened just before `s`, skipping nested alternatives and escaped characters. -/
def indexMatchedClosingAlt : List Char → Nat → Nat → Option Nat
  | [], _, _ => none
  | c :: rest, alts, i =>
    if c = '\\' then
      match rest with
      | [] => none
      | _ :: rest2 => indexMatchedClosingAlt rest2 alts (i + 2)
    else if c = '{' then indexMatchedClosingAlt rest (alts + 1) (i + 1)
    else if c = '}' then
      if alts = 1 then some i else indexMatchedClosingAlt rest (alts - 1) (i + 1)
    else indexMatchedClosingAlt rest alts (i + 1)

/-- The function `indexNextAlt`: index of the next unescaped comma at the top level of
an alternative. The depth counter is a signed integer, as in the library. -/
def indexNextAlt : List Char → Int → Nat → Option Nat
  | [], _, _ => none
  | c :: rest, alts, i =>
    if c = '\\' then
      match rest with
      | [] => none
      | _ :: rest2 => indexNextAlt rest2 alts (i + 2)
    else if c = '{' then indexNextAlt rest (alts + 1) (i + 1)
    else if c = '}' then indexNextAlt rest (alts - 1) (i + 1)
    else if c = ',' ∧ alts = 1 then some i
    else indexNextAlt rest alts (i + 1)

/-- The branches of an alternative: the text between `{` and its closing `}` cut at
every comma that `indexNextAlt` finds, the search restarting after each comma. -/
def altBranches : Nat → List Char → List (List Char)
  | 0, s => [s]
  | fuel + 1, s =>
    match indexNextAlt s 1 0 with
    | none => [s]
    | some commaIdx => s.take commaIdx :: altBranches fuel (s.drop (commaIdx + 1))

/-- The loop over the members of a character class, started after `[` and an optional
negation sign. Returns whether the name rune matched a member and how many pattern
characters were read up to the closing `]`, or `none` when the class does not end. -/
def classLoop (nameRune : Char) : List Char → Nat → Bool → Nat → Option (Bool × Nat)
  | [], _, _, _ => none
  | [c], _, matched, k => if c = ']' then some (matched, k) else none
  | c :: d :: rest2, last, matched, k =>
    if c = ']' then some (matched, k)
    else if last < maxRune ∧ c = '-' ∧ d ≠ ']' then
      -- match a range
      if d = '\\' then
        match rest2 with
        | [] => none
        | e :: rest3 =>
          classLoop nameRune rest3 maxRune
            (matched || (decide (last ≤ nameRune.toNat) && decide (nameRune.toNat ≤ e.toNat)))
            (k + 3)
      else
        classLoop nameRune rest2 maxRune
          (matched || (decide (last ≤ nameRune.toNat) && decide (nameRune.toNat ≤ d.toNat)))
          (k + 2)
    else if c = '\\' then
      classLoop nameRune rest2 d.toNat (matched || decide (d = nameRune)) (k + 2)
    else
      classLoop nameRune (d :: rest2) c.toNat (matched || decide (c = nameRune)) (k + 1)

/-- Index of the first separator of `name` at or after index `i`, if any. -/
def nextSeparator : List Char → Nat → Option Nat
  | [], _ => none
  | c :: rest, i => if c = '/' then some i else nextSeparator rest (i + 1)

/-- The variables of the matching loop: the two backtrack points (pattern index, name
index) of `**` and of `*`, the two read indices and the flag `startOfSegment`. -/
structure State where
  doublestarBacktrack : Option (Nat × Nat)
  starBacktrack : Option (Nat × Nat)
  patIdx : Nat
  nameIdx : Nat
  startOfSegment : Bool
  deriving DecidableEq, Repr

/-- What one turn of the matching loop does: go round again, return, or try the
branches of an alternative in turn (each a whole pattern, resumed at `beforeIdx`). -/
inductive Step where
  | next (s : State)
  | ret (r : Bool × Option GoError)
  | alts (patterns : List (List Char)) (beforeIdx : Nat)
  deriving Repr

/-- The end of a turn in which the pattern did not match at the current position:
backtrack to the last `*`, else to the last `**`, else fail (after validating what is
left of the pattern from `patIdx`). -/
def backtrack (pattern name : List Char) (s : State) (patIdx : Nat) : Step :=
  let starStep : Option Step :=
    match s.starBacktrack with
    | none => none
    | some (starPat, starName) =>
      match name.drop starName with
      | [] => some (.next { s with starBacktrack := some (starPat, starName),
                                   patIdx := starPat, nameIdx := starName,
                                   startOfSegment := false })
      | nameRune :: _ =>
        if nameRune ≠ '/' then
          some (.next { s with starBacktrack := some (starPat, starName + 1),
                               patIdx := starPat, nameIdx := starName + 1,
                               startOfSegment := false })
        else none
  match starStep with
  | some st => st
  | none =>
    let doublestarStep : Option Step :=
      match s.doublestarBacktrack with
      | none => none
      | some (dsPat, dsName) =>
        match nextSeparator (name.drop dsName) dsName with
        | none => none
        | some j =>
          some (.next { s with doublestarBacktrack := some (dsPat, j + 1),
                               patIdx := dsPat, nameIdx := j + 1, startOfSegment := true })
    match doublestarStep with
    | some st => st
    | none =>
      if patIdx < pattern.length ∧ ¬ doValidatePattern (pattern.drop patIdx) then
        .ret (false, some ErrBadPattern)
      else .ret (false, none)

/-- One turn of the loop of `doMatchWithSeparator`, entered with
`nameIdx < len(name)`. -/
def step (pattern name : List Char) (s : State) : Step :=
  let nameRune := name.getD s.nameIdx runeError
  match pattern.drop s.patIdx with
  | [] => backtrack pattern name s s.patIdx
  | c :: prest =>
    if c = '*' then
      let setStar (patIdx : Nat) : Step :=
        .next { s with starBacktrack := some (patIdx, s.nameIdx), patIdx := patIdx,
                       startOfSegment := false }
      match prest with
      | [] => setStar (s.patIdx + 1)
      | d :: prest2 =>
        if d = '*' then
          if s.startOfSegment then
            match prest2 with
            | [] => .ret (true, none)
            | e :: _ =>
              if e = '/' then
                .next { s with doublestarBacktrack := some (s.patIdx + 3, s.nameIdx),
                               starBacktrack := none, patIdx := s.patIdx + 3 }
              else setStar (s.patIdx + 2)
          else setStar (s.patIdx + 2)
        else setStar (s.patIdx + 1)
    else if c = '?' then
      if nameRune = '/' then backtrack pattern name s s.patIdx
      else .next { s with patIdx := s.patIdx + 1, nameIdx := s.nameIdx + 1,
                          startOfSegment := false }
    else if c = '[' then
      match prest with
      | [] => .ret (false, some ErrBadPattern)
      | d :: prest2 =>
        let negate : Bool := d = '!' ∨ d = '^'
        let members := if negate then prest2 else prest
        let skipped := if negate then 2 else 1
        match members with
        | [] => .ret (false, some ErrBadPattern)
        | e :: _ =>
          if e = ']' then .ret (false, some ErrBadPattern)
          else
            match classLoop nameRune members maxRune false 0 with
            | none => .ret (false, some ErrBadPattern)
            | some (matched, k) =>
              let patIdx := s.patIdx + skipped + k + 1
              if matched = negate then backtrack pattern name s patIdx
              else .next { s with patIdx := patIdx, nameIdx := s.nameIdx + 1,
                                  startOfSegment := false }
    else if c = '{' then
      match indexMatchedClosingAlt prest 1 0 with
      | none => .ret (false, some ErrBadPattern)
      | some closingIdx =>
        let inner := prest.take closingIdx
        let after := prest.drop (closingIdx + 1)
        .alts ((altBranches inner.length inner).map
                (fun branch => pattern.take s.patIdx ++ branch ++ after)) s.patIdx
    else
      let literal (patIdx : Nat) (patRune : Char) : Step :=
        if patRune ≠ nameRune then
          if 0 < patIdx ∧ pattern.getD (patIdx - 1) runeError = '\\' then
            backtrack pattern name s (patIdx - 1)
          else backtrack pattern name s patIdx
        else .next { s with patIdx := patIdx + 1, nameIdx := s.nameIdx + 1,
                            startOfSegment := patRune = '/' }
      if c = '\\' then
        match prest with
        | [] => .ret (false, some ErrBadPattern)
        | d :: _ => literal (s.patIdx + 1) d
      else literal s.patIdx c

/-- The function `isZeroLengthPattern`: can what is left of the pattern match the empty
string. -/
def isZeroLengthPattern : Nat → List Char → Bool × Option GoError
  | 0, _ => (false, none)
  | fuel + 1, pattern =>
    if pattern = [] ∨ pattern = ['*'] ∨ pattern = ['*', '*'] ∨ pattern = ['/', '*', '*'] ∨
        pattern = ['*', '*', '/'] ∨ pattern = ['/', '*', '*', '/'] then (true, none)
    else
      match pattern with
      | '{' :: prest =>
        match indexMatchedClosingAlt prest 1 0 with
        | none => (false, some ErrBadPattern)
        | some closingIdx =>
          let inner := prest.take closingIdx
          let after := prest.drop (closingIdx + 1)
          let results := (altBranches inner.length inner).map
            (fun branch => isZeroLengthPattern fuel (branch ++ after))
          match results.find? (fun r => r.1 || r.2.isSome) with
          | some r => r
          | none => results.getLastD (false, none)
      | _ =>
        if ¬ doValidatePattern pattern then (false, some ErrBadPattern) else (false, none)

/-- The function `doMatchWithSeparator`: `fuel` bounds the number of turns of the loop
along one chain of calls. -/
def doMatch : Nat → List Char → List Char → State → Bool × Option GoError
  | 0, _, _, _ => (false, none)
  | fuel + 1, pattern, name, s =>
    if s.nameIdx < name.length then
      match step pattern name s with
      | .next s2 => doMatch fuel pattern name s2
      | .ret r => r
      | .alts patterns beforeIdx =>
        let results := patterns.map (fun pat =>
          doMatch fuel pat name { s with patIdx := beforeIdx, startOfSegment := true })
        match results.find? (fun r => r.1 || r.2.isSome) with
        | some r => r
        | none => results.getLastD (false, none)
    else
      isZeroLengthPattern (pattern.length + 1) (pattern.drop s.patIdx)

/-- The number of turns granted to the matching loop on `pattern` and `name`, a bound
polynomial in their lengths. The lemmas on patterns without metacharacters prove it
sufficient for the patterns they cover; when it runs out `doMatch` reports no match. -/
def matchFuel (pattern name : List Char) : Nat := (pattern.length + name.length + 2) ^ 5

/-- Go `doublestar.Match(pattern, name)`. -/
def Match (pattern name : String) : Bool × Option GoError :=
  doMatch (matchFuel pattern.data name.data) pattern.data name.data
    { doublestarBacktrack := none, starBacktrack := none, patIdx := 0, nameIdx := 0,
      startOfSegment := true }

end doublestar

/-! ## `SatisfyWorskpaceDep` -/

/-- What `SatisfyWorskpaceDep` takes from outside the package and the pure path code: the
outcome of `os.Getwd()` (read by `filepath.Abs`) and the `semver` library, of which only
the success or failure of the two parsers and the verdict of `Check` are used. -/
structure Env where
  Getwd : Except GoError String
  Constraint : Type
  Version : Type
  NewConstraint : String → Option Constraint
  NewVersion : String → Option Version
  Check : Constraint → Version → Bool

deriving instance DecidableEq for Except

/-- Lines 82 to 93 of depInfo.go: the workspace root that the membership check uses, or
the error with which the function returns `false`. -/
def resolveWorkspaceRoot (env : Env) (dep : PackageJsonDepInfo) (workspacesRootDir : String) :
    Except GoError String :=
  if workspacesRootDir = "" then
    if dep.Protocol = "workspace" then .error ErrMissingWorkspaceInfo
    else .ok (filepath.Dir dep.FromFile)
  else if !filepath.IsAbs workspacesRootDir then
    match filepath.Abs env.Getwd workspacesRootDir with
    | .error err => .error err
    | .ok workspacesRootDirAbs => .ok workspacesRootDirAbs
  else .ok workspacesRootDir

/-- Lines 103 to 140 of depInfo.go: the protocol dispatch and the version check, reached
once the membership check has passed. -/
def satisfyProtocol (env : Env) (p : PackageJSON) (dep : PackageJsonDepInfo) :
    Bool × Option GoError :=
  if dep.Protocol = "workspace" then (true, none)
  else if dep.Protocol = "file" ∨ dep.Protocol = "link" ∨ dep.Protocol = "portal" then
    let depPath := filepath.Join (filepath.Dir dep.FromFile) dep.VersionRange
    if depPath ≠ p.Dir then
      (false, some (fmt.Errorf ErrMismatchPath
        (": Package " ++ dep.Name ++ " path does not match workspace package " ++ p.Name)))
    else (true, none)
  else if dep.Protocol ≠ "" ∧ dep.Protocol ≠ "npm" then (false, some ErrRemoteProtocol)
  else if dep.VersionRange = "*" ∨ dep.VersionRange = "^" ∨ dep.VersionRange = "~" then
    (true, none)
  else
    match env.NewConstraint dep.VersionRange with
    | none =>
      (true, some (fmt.Errorf ErrParseVersion ("can't parse version: " ++ dep.VersionRange)))
    | some constraint =>
      match env.NewVersion p.Version with
      | none =>
        (true, some (fmt.Errorf ErrParseVersion ("can't parse version: " ++ p.Version)))
      | some version =>
        if env.Check constraint version then (true, none)
        else (false, some ErrParseVersion)

/-- The method `SatisfyWorskpaceDep` of depInfo.go. The message of the path-mismatch
error is the one `fmt.Errorf` produces when the two names hold no `%`. -/
def SatisfyWorskpaceDep (env : Env) (p : PackageJSON) (dep : PackageJsonDepInfo)
    (workspacesRootDir : String) : Bool × Option GoError :=
  if p.Name ≠ dep.Name then
    (false, some (fmt.Errorf ErrMismatchName (": " ++ p.Name ++ "!= " ++ dep.Name)))
  else
    match resolveWorkspaceRoot env dep workspacesRootDir with
    | .error err => (false, some err)
    | .ok root =>
      match doublestar.Match (filepath.Join root "**") p.Dir with
      | (false, some err) =>
        (false, some (fmt.Errorf err ": can't check dependency is inside workspace"))
      | (false, none) => (false, some ErrOutsideWokspace)
      | (true, _) => satisfyProtocol env p dep

/-- The membership check of `SatisfyWorskpaceDep` passes for candidate directory `dir`
under the resolved root `root`. -/
def membershipPasses (root dir : String) : Prop :=
  (doublestar.Match (filepath.Join root "**") dir).1 = true

instance (root dir : String) : Decidable (membershipPasses root dir) := by
  unfold membershipPasses; infer_instance

/-- An environment for worked examples: the working directory is `/home/user` and the
version parsers reject every input (no example below reaches them). -/
def exampleEnv : Env :=
  { Getwd := .ok "/home/user", Constraint := Unit, Version := Unit,
    NewConstraint := fun _ => none, NewVersion := fun _ => none, Check := fun _ _ => false }

/-- A candidate package with the given name, version and directory and no dependencies. -/
def candidate (name version dir : String) : PackageJSON :=
  { Name := name, Version := version, Dir := dir, file := dir ++ "/package.json",
    Dependencies := [], DevDependencies := [], OptionalDependencies := [],
    PeerDependencies := [] }

/-- The characters that a doublestar pattern does not read as themselves: wildcards,
the openers of classes and alternatives, the closer of an alternative (rejected by
pattern validation when unmatched) and the escape character. -/
def doublestar.isMeta (c : Char) : Bool :=
  c = '*' ∨ c = '?' ∨ c = '[' ∨ c = '{' ∨ c = '}' ∨ c = '\\'

/-- Directory `dir` is `root` itself or `root` followed by a separator and further,
arbitrarily nested, path text. -/
def isNestedUnder (root dir : String) : Prop :=
  dir = root ∨ (root.data ++ ['/']) <+: dir.data

instance (root dir : String) : Decidable (isNestedUnder root dir) := by
  unfold isNestedUnder; infer_instance

/-! ## Environments for worked examples of the version check -/

namespace semverExample

/-- Decimal value of a non-empty string of digits. -/
def parseNat (l : List Char) : Option Nat :=
  if l ≠ [] ∧ l.all Char.isDigit = true then
    some (l.foldl (fun n c => 10 * n + (c.toNat - 48)) 0)
  else none

/-- A version made of three dot-separated decimal numbers. -/
def parseVersion (l : List Char) : Option (Nat × Nat × Nat) :=
  match strings.splitChars '.' l with
  | [a, b, c] =>
    match parseNat a, parseNat b, parseNat c with
    | some x, some y, some z => some (x, y, z)
    | _, _, _ => none
  | _ => none

/-- The two kinds of constraint of the examples: `^version` and `<=version`. -/
inductive Constraint where
  | caret (v : Nat × Nat × Nat)
  | lessEq (v : Nat × Nat × Nat)
  deriving DecidableEq, Repr

/-- A constraint `^version` or `<=version`. -/
def parseConstraint (l : List Char) : Option Constraint :=
  match l with
  | c :: rest =>
    if c = '^' then (parseVersion rest).map Constraint.caret
    else if c = '<' then
      match rest with
      | d :: rest2 => if d = '=' then (parseVersion rest2).map Constraint.lessEq else none
      | [] => none
    else none
  | [] => none

/-- Order of versions: major, then minor, then patch. -/
def versionLe (a b : Nat × Nat × Nat) : Bool :=
  decide (a.1 < b.1) ||
    (decide (a.1 = b.1) &&
      (decide (a.2.1 < b.2.1) || (decide (a.2.1 = b.2.1) && decide (a.2.2 ≤ b.2.2))))

/-- Does the version satisfy the constraint: `^c` asks for a version not below `c` with
the major number of `c`, `<=c` for a version not above `c`. -/
def check : Constraint → Nat × Nat × Nat → Bool
  | .caret c, v => versionLe c v && decide (v.1 = c.1)
  | .lessEq c, v => versionLe v c

end semverExample

/-- An environment for worked examples of the version check: the working directory is
`/home/user`; versions are three dot-separated decimal numbers and constraints are `^` or
`<=` followed by such a version, read as Masterminds/semver reads them. Every other
input is rejected here, while the library accepts more forms. -/
def semverEnv : Env :=
  { Getwd := .ok "/home/user",
    Constraint := semverExample.Constraint,
    Version := Nat × Nat × Nat,
    NewConstraint := fun s => semverExample.parseConstraint s.data,
    NewVersion := fun s => semverExample.parseVersion s.data,
    Check := semverExample.check }

/-- An environment in which `os.Getwd()` fails, as it does when the working directory
has been removed. -/
def noGetwdEnv : Env :=
  { Getwd := .error (.new "getwd: no such file or directory"), Constraint := Unit,
    Version := Unit, NewConstraint := fun _ => none, NewVersion := fun _ => none,
    Check := fun _ _ => false }

/-- Directory `dir` is `root` followed by a separator and nested path segments; for the
root `/` the separator is the one of the root itself. -/
def isStrictlyUnder (root dir : String) : Prop :=
  (if root = "/" then ['/'] else root.data ++ ['/']) <+: dir.data

instance (root dir : String) : Decidable (isStrictlyUnder root dir) := by
  unfold isStrictlyUnder; infer_instance

/-- The descriptor `i` carries the raw specifier `v`: when `v` holds a colon, `Protocol`
holds none and `Protocol`, a colon and `VersionRange` make up `v`; when `v` holds no
colon, `Protocol` is empty and `VersionRange` is `v`. This fixes both fields from `v`. -/
def carriesSpecifier (i : PackageJsonDepInfo) (v : String) : Prop :=
  (strings.Contains v ':' →
    ¬ strings.Contains i.Protocol ':' ∧ i.Protocol ++ ":" ++ i.VersionRange = v) ∧
  (¬ strings.Contains v ':' → i.Protocol = "" ∧ i.VersionRange = v)

/-- Directory `dir` lies under `root`: it is `root` itself or `root` followed by a
separator and nested path segments. -/
def liesUnder (root dir : String) : Prop := dir = root ∨ isStrictlyUnder root dir

instance (root dir : String) : Decidable (liesUnder root dir) := by
  unfold liesUnder; infer_instance

/-- A manifest for worked examples that declares `foo` in three mappings: `npm:1.0.0`
under dependencies, `file:../foo` under devDependencies and `^2` under peerDependencies. -/
def shadowingManifest : PackageJSON :=
  { Name := "fooer", Version := "1.2.3", Dir := "/ws/fooer",
    file := "/ws/fooer/package.json", Dependencies := [("foo", "npm:1.0.0")],
    DevDependencies := [("foo", "file:../foo")], OptionalDependencies := [],
    PeerDependencies := [("foo", "^2")] }

/-! # Theorems -/

/-! ## Lemmas on splitting -/

theorem strings.splitChars_ne_nil (sep : Char) (l : List Char) : splitChars sep l ≠ [] := by
  induction l with
  | nil => simp [splitChars]
  | cons c cs ih =>
    unfold splitChars
    split
    · simp
    · split <;> simp

theorem strings.splitChars_of_not_mem (sep : Char) (l : List Char) (h : sep ∉ l) :
    splitChars sep l = [l] := by
  induction l with
  | nil => simp [splitChars]
  | cons c cs ih =>
    have hc : ¬ c = sep := fun e => h (by simp [e])
    have hcs : sep ∉ cs := fun e => h (by simp [e])
    simp [splitChars, hc, ih hcs]

theorem strings.splitChars_of_mem (sep : Char) (l : List Char) (h : sep ∈ l) :
    ∃ a b rest, splitChars sep l = a :: b :: rest ∧ sep ∉ a ∧
      a ++ sep :: joinChars sep (b :: rest) = l := by
  induction l with
  | nil => simp at h
  | cons c cs ih =>
    by_cases hc : c = sep
    · subst hc
      obtain ⟨x, xs, hx⟩ := List.exists_cons_of_ne_nil (splitChars_ne_nil c cs)
      refine ⟨[], x, xs, by simp [splitChars, hx], by simp, ?_⟩
      rw [← hx]
      by_cases hm : c ∈ cs
      · obtain ⟨a, b, rest, h1, _, h3⟩ := ih hm
        rw [h1]
        simp only [joinChars, List.nil_append, h3]
      · rw [splitChars_of_not_mem c cs hm]
        simp [joinChars]
    · have hm : sep ∈ cs := by
        rcases List.mem_cons.1 h with e | e
        · exact absurd e.symm hc
        · exact e
      obtain ⟨a, b, rest, h1, h2, h3⟩ := ih hm
      refine ⟨c :: a, b, rest, by simp [splitChars, hc, h1], ?_, by simp [h3]⟩
      intro e
      rcases List.mem_cons.1 e with e | e
      · exact hc e.symm
      · exact h2 e

/-! ## Lemmas on the dependency mappings -/

theorem lookup_eq_none_iff (m : List (String × String)) (n : String) :
    m.lookup n = none ↔ ¬ hasKey m n := by
  induction m with
  | nil => simp [hasKey, List.lookup]
  | cons kv rest ih =>
    obtain ⟨k, v⟩ := kv
    by_cases h : n = k
    · subst h
      simp [hasKey, List.lookup]
    · have hb : (n == k) = false := by simpa using h
      simp only [List.lookup, hb, ih]
      simp [hasKey, h]

theorem lookup_isSome_of_hasKey (m : List (String × String)) (n : String) (h : hasKey m n) :
    ∃ v, m.lookup n = some v := by
  cases hl : m.lookup n with
  | none => exact absurd h ((lookup_eq_none_iff m n).1 hl)
  | some v => exact ⟨v, rfl⟩

theorem lookupDependency_eq_none_iff (M : PackageJSON) (n : String) :
    lookupDependency M n = none ↔
      (¬ hasKey M.Dependencies n ∧ ¬ hasKey M.DevDependencies n ∧
       ¬ hasKey M.OptionalDependencies n ∧ ¬ hasKey M.PeerDependencies n) := by
  simp only [← lookup_eq_none_iff]
  unfold lookupDependency
  cases h1 : M.Dependencies.lookup n <;> cases h2 : M.DevDependencies.lookup n <;>
    cases h3 : M.OptionalDependencies.lookup n <;>
    cases h4 : M.PeerDependencies.lookup n <;> simp

theorem newDependencyInfo_of_lookup (M : PackageJSON) (n key s : String)
    (h : lookupDependency M n = some (key, s)) :
    (newDependencyInfo M n).2 = true ∧ (newDependencyInfo M n).1.Key = key ∧
    (newDependencyInfo M n).1.Name = n := by
  unfold newDependencyInfo
  rw [h]
  simp only
  split <;> simp

theorem newDependencyInfo_of_none (M : PackageJSON) (n : String)
    (h : lookupDependency M n = none) :
    newDependencyInfo M n = (PackageJsonDepInfo.zero, false) := by
  unfold newDependencyInfo
  rw [h]

/-! ## Claims on `newDependencyInfo` -/

theorem strings.Split_of_not_contains (s : String) (h : ¬ strings.Contains s ':') :
    strings.Split s ':' = [s] := by
  unfold strings.Split
  rw [strings.splitChars_of_not_mem ':' s.data h]
  rfl

theorem strings.Split_of_contains (s : String) (h : strings.Contains s ':') :
    ∃ a b rest, strings.Split s ':' = String.mk a :: String.mk b :: rest.map String.mk ∧
      ':' ∉ a ∧ a ++ ':' :: strings.joinChars ':' (b :: rest) = s.data := by
  obtain ⟨a, b, rest, h1, h2, h3⟩ := strings.splitChars_of_mem ':' s.data h
  exact ⟨a, b, rest, by simp [strings.Split, h1], h2, h3⟩

theorem strings.Join_map_mk (l : List (List Char)) :
    strings.Join (l.map String.mk) ':' = String.mk (strings.joinChars ':' l) := by
  unfold strings.Join
  congr 2
  rw [List.map_map]
  conv_rhs => rw [← List.map_id l]
  rfl

/-- Two splittings of a text at a separator that neither left side holds agree. -/
theorem strings.append_sep_inj (c : Char) :
    ∀ (a a2 b b2 : List Char), c ∉ a → c ∉ a2 → a ++ c :: b = a2 ++ c :: b2 →
      a = a2 ∧ b = b2
  | [], [], b, b2, _, _, h => ⟨rfl, by simpa using h⟩
  | [], y :: ys, b, b2, _, h2, h => by
    simp only [List.nil_append, List.cons_append, List.cons.injEq] at h
    exact absurd (h.1 ▸ List.mem_cons_self _ _) h2
  | x :: xs, [], b, b2, h1, _, h => by
    simp only [List.nil_append, List.cons_append, List.cons.injEq] at h
    exact absurd (h.1 ▸ List.mem_cons_self _ _) h1
  | x :: xs, y :: ys, b, b2, h1, h2, h => by
    simp only [List.cons_append, List.cons.injEq] at h
    obtain ⟨e1, e2⟩ := strings.append_sep_inj c xs ys b b2
      (fun hm => h1 (List.mem_cons_of_mem _ hm)) (fun hm => h2 (List.mem_cons_of_mem _ hm)) h.2
    exact ⟨by rw [h.1, e1], e2⟩

/-- A raw specifier is carried by one pair of fields only: two descriptors that carry
the same specifier have the same `Protocol` and the same `VersionRange`. -/
theorem carriesSpecifier_unique (i j : PackageJsonDepInfo) (v : String)
    (hi : carriesSpecifier i v) (hj : carriesSpecifier j v) :
    i.Protocol = j.Protocol ∧ i.VersionRange = j.VersionRange := by
  by_cases hc : strings.Contains v ':'
  · obtain ⟨hi1, hi2⟩ := hi.1 hc
    obtain ⟨hj1, hj2⟩ := hj.1 hc
    have h : i.Protocol.data ++ ':' :: i.VersionRange.data =
        j.Protocol.data ++ ':' :: j.VersionRange.data := by
      have := congrArg String.data (hi2.trans hj2.symm)
      simpa [String.data_append] using this
    obtain ⟨e1, e2⟩ := strings.append_sep_inj ':' _ _ _ _ hi1 hj1 h
    exact ⟨String.ext e1, String.ext e2⟩
  · obtain ⟨hi1, hi2⟩ := hi.2 hc
    obtain ⟨hj1, hj2⟩ := hj.2 hc
    exact ⟨hi1.trans hj1.symm, hi2.trans hj2.symm⟩

/-- The descriptor returned for a raw specifier found by the cascade: it is found, it
bears the key of the mapping, the module name and the identity of the declaring manifest,
and it carries the specifier. -/
theorem newDependencyInfo_describes (M : PackageJSON) (n key s : String)
    (h : lookupDependency M n = some (key, s)) :
    (newDependencyInfo M n).2 = true ∧ (newDependencyInfo M n).1.Key = key ∧
    (newDependencyInfo M n).1.Name = n ∧ (newDependencyInfo M n).1.FromName = M.Name ∧
    (newDependencyInfo M n).1.FromVersion = M.Version ∧
    (newDependencyInfo M n).1.FromFile = M.file ∧
    carriesSpecifier (newDependencyInfo M n).1 s := by
  refine ⟨?_, ?_, ?_, ?_, ?_, ?_, ?_, ?_⟩
  · unfold newDependencyInfo; rw [h]; simp only; split <;> simp
  · unfold newDependencyInfo; rw [h]; simp only; split <;> simp
  · unfold newDependencyInfo; rw [h]; simp only; split <;> simp
  · unfold newDependencyInfo; rw [h]; simp only; split <;> simp
  · unfold newDependencyInfo; rw [h]; simp only; split <;> simp
  · unfold newDependencyInfo; rw [h]; simp only; split <;> simp
  · intro hc
    obtain ⟨a, b, rest, h1, h2, h3⟩ := strings.Split_of_contains s hc
    unfold newDependencyInfo
    rw [h]
    simp only [h1, List.length_cons, List.headD_cons, List.tail_cons]
    rw [if_neg (by omega)]
    simp only
    rw [← List.map_cons, strings.Join_map_mk]
    refine ⟨h2, ?_⟩
    apply String.ext
    simp only [String.data_append]
    rw [← h3]
    simp
  · intro hc
    unfold newDependencyInfo
    rw [h]
    simp only [strings.Split_of_not_contains s hc]
    simp [PackageJsonDepInfo.zero]

/-- C1: `newDependencyInfo M n` returns `ok = false` exactly when `n` is a key of none of
the four dependency mappings; otherwise it returns `ok = true` and a descriptor whose
`Key` names the first mapping holding `n` in the order dependencies, devDependencies,
optionalDependencies, peerDependencies, and whose `Protocol` and `VersionRange` are the
two sides of the specifier that this mapping holds for `n`; the descriptor also bears the
name `n` and the name, version and file of the manifest. -/
theorem C1_found_iff_and_priority (M : PackageJSON) (n : String) :
    ((newDependencyInfo M n).2 = false ↔
      (¬ hasKey M.Dependencies n ∧ ¬ hasKey M.DevDependencies n ∧
       ¬ hasKey M.OptionalDependencies n ∧ ¬ hasKey M.PeerDependencies n)) ∧
    (hasKey M.Dependencies n →
      ∃ v, M.Dependencies.lookup n = some v ∧
        (newDependencyInfo M n).2 = true ∧
        (newDependencyInfo M n).1.Key = "dependencies" ∧
        (newDependencyInfo M n).1.Name = n ∧
        (newDependencyInfo M n).1.FromName = M.Name ∧
        (newDependencyInfo M n).1.FromVersion = M.Version ∧
        (newDependencyInfo M n).1.FromFile = M.file ∧
        carriesSpecifier (newDependencyInfo M n).1 v) ∧
    (¬ hasKey M.Dependencies n → hasKey M.DevDependencies n →
      ∃ v, M.DevDependencies.lookup n = some v ∧
        (newDependencyInfo M n).2 = true ∧
        (newDependencyInfo M n).1.Key = "devDependencies" ∧
        (newDependencyInfo M n).1.Name = n ∧
        (newDependencyInfo M n).1.FromName = M.Name ∧
        (newDependencyInfo M n).1.FromVersion = M.Version ∧
        (newDependencyInfo M n).1.FromFile = M.file ∧
        carriesSpecifier (newDependencyInfo M n).1 v) ∧
    (¬ hasKey M.Dependencies n → ¬ hasKey M.DevDependencies n →
      hasKey M.OptionalDependencies n →
      ∃ v, M.OptionalDependencies.lookup n = some v ∧
        (newDependencyInfo M n).2 = true ∧
        (newDependencyInfo M n).1.Key = "optionalDependencies" ∧
        (newDependencyInfo M n).1.Name = n ∧
        (newDependencyInfo M n).1.FromName = M.Name ∧
        (newDependencyInfo M n).1.FromVersion = M.Version ∧
        (newDependencyInfo M n).1.FromFile = M.file ∧
        carriesSpecifier (newDependencyInfo M n).1 v) ∧
    (¬ hasKey M.Dependencies n → ¬ hasKey M.DevDependencies n →
      ¬ hasKey M.OptionalDependencies n → hasKey M.PeerDependencies n →
      ∃ v, M.PeerDependencies.lookup n = some v ∧
        (newDependencyInfo M n).2 = true ∧
        (newDependencyInfo M n).1.Key = "peerDependencies" ∧
        (newDependencyInfo M n).1.Name = n ∧
        (newDependencyInfo M n).1.FromName = M.Name ∧
        (newDependencyInfo M n).1.FromVersion = M.Version ∧
        (newDependencyInfo M n).1.FromFile = M.file ∧
        carriesSpecifier (newDependencyInfo M n).1 v) := by
  refine ⟨?_, ?_, ?_, ?_, ?_⟩
  · constructor
    · intro h
      cases hl : lookupDependency M n with
      | some kv =>
        have h2 := (newDependencyInfo_describes M n kv.1 kv.2 hl).1
        rw [h2] at h
        exact absurd h (by simp)
      | none => exact (lookupDependency_eq_none_iff M n).1 hl
    · intro h
      rw [newDependencyInfo_of_none M n ((lookupDependency_eq_none_iff M n).2 h)]
  · intro h1
    obtain ⟨v, hv⟩ := lookup_isSome_of_hasKey _ _ h1
    have hl : lookupDependency M n = some ("dependencies", v) := by
      unfold lookupDependency
      rw [hv]
    exact ⟨v, hv, newDependencyInfo_describes M n _ v hl⟩
  · intro h1 h2
    rw [← lookup_eq_none_iff] at h1
    obtain ⟨v, hv⟩ := lookup_isSome_of_hasKey _ _ h2
    have hl : lookupDependency M n = some ("devDependencies", v) := by
      unfold lookupDependency
      rw [h1, hv]
    exact ⟨v, hv, newDependencyInfo_describes M n _ v hl⟩
  · intro h1 h2 h3
    rw [← lookup_eq_none_iff] at h1 h2
    obtain ⟨v, hv⟩ := lookup_isSome_of_hasKey _ _ h3
    have hl : lookupDependency M n = some ("optionalDependencies", v) := by
      unfold lookupDependency
      rw [h1, h2, hv]
    exact ⟨v, hv, newDependencyInfo_describes M n _ v hl⟩
  · intro h1 h2 h3 h4
    rw [← lookup_eq_none_iff] at h1 h2 h3
    obtain ⟨v, hv⟩ := lookup_isSome_of_hasKey _ _ h4
    have hl : lookupDependency M n = some ("peerDependencies", v) := by
      unfold lookupDependency
      rw [h1, h2, h3, hv]
    exact ⟨v, hv, newDependencyInfo_describes M n _ v hl⟩

/-- Witness for C1: in the manifest that declares `foo` in three mappings, the
descriptor of `foo` bears the key of dependencies and carries the specifier held there. -/
theorem C1_found_iff_and_priority_witness :
    hasKey shadowingManifest.Dependencies "foo" ∧
    ∃ v, shadowingManifest.Dependencies.lookup "foo" = some v ∧
      (newDependencyInfo shadowingManifest "foo").2 = true ∧
      (newDependencyInfo shadowingManifest "foo").1.Key = "dependencies" ∧
      (newDependencyInfo shadowingManifest "foo").1.Name = "foo" ∧
      (newDependencyInfo shadowingManifest "foo").1.FromName = shadowingManifest.Name ∧
      (newDependencyInfo shadowingManifest "foo").1.FromVersion = shadowingManifest.Version ∧
      (newDependencyInfo shadowingManifest "foo").1.FromFile = shadowingManifest.file ∧
      carriesSpecifier (newDependencyInfo shadowingManifest "foo").1 v :=
  ⟨by decide, (C1_found_iff_and_priority shadowingManifest "foo").2.1 (by decide)⟩

/-- The descriptor of `foo` in the manifest that declares it in three mappings is the one
of dependencies, with protocol `npm` and version range `1.0.0`. -/
theorem newDependencyInfo_priority_example :
    newDependencyInfo shadowingManifest "foo" =
      ({ Name := "foo", VersionRange := "1.0.0", Key := "dependencies", Protocol := "npm",
         FromName := "fooer", FromVersion := "1.2.3", FromFile := "/ws/fooer/package.json" },
       true) := by
  decide

/-- C2: for a raw specifier `s` found by `newDependencyInfo`, if `s` contains a colon then
`Protocol` contains none and `Protocol ++ ":" ++ VersionRange = s` (split at the first
colon only); if `s` contains no colon then `Protocol` is empty and `VersionRange = s`. -/
theorem C2_split_at_first_colon (M : PackageJSON) (n key s : String)
    (h : lookupDependency M n = some (key, s)) :
    (strings.Contains s ':' →
      ¬ strings.Contains (newDependencyInfo M n).1.Protocol ':' ∧
      (newDependencyInfo M n).1.Protocol ++ ":" ++ (newDependencyInfo M n).1.VersionRange = s) ∧
    (¬ strings.Contains s ':' →
      (newDependencyInfo M n).1.Protocol = "" ∧ (newDependencyInfo M n).1.VersionRange = s) := by
  constructor
  · intro hc
    obtain ⟨a, b, rest, h1, h2, h3⟩ := strings.Split_of_contains s hc
    unfold newDependencyInfo
    rw [h]
    simp only [h1, List.length_cons, List.headD_cons, List.tail_cons]
    rw [if_neg (by omega)]
    simp only
    rw [← List.map_cons, strings.Join_map_mk]
    refine ⟨h2, ?_⟩
    apply String.ext
    simp only [String.data_append]
    rw [← h3]
    simp
  · intro hc
    unfold newDependencyInfo
    rw [h]
    simp only [strings.Split_of_not_contains s hc]
    simp [PackageJsonDepInfo.zero]

/-- Witness for C2: the specifier `file:C:/devBaz` of a development dependency, with a
second colon that stays in the version range. -/
theorem C2_split_at_first_colon_witness :
    (newDependencyInfo
      { Name := "fooer", Version := "1.2.3", Dir := "/ws/fooer",
        file := "/ws/fooer/package.json", Dependencies := [("foo", "^1.2.3")],
        DevDependencies := [("devBaz", "file:C:/devBaz")], OptionalDependencies := [],
        PeerDependencies := [] } "devBaz").1.Protocol = "file" ∧
    (newDependencyInfo
      { Name := "fooer", Version := "1.2.3", Dir := "/ws/fooer",
        file := "/ws/fooer/package.json", Dependencies := [("foo", "^1.2.3")],
        DevDependencies := [("devBaz", "file:C:/devBaz")], OptionalDependencies := [],
        PeerDependencies := [] } "devBaz").1.VersionRange = "C:/devBaz" ∧
    ((strings.Contains "file:C:/devBaz" ':' →
      ¬ strings.Contains (newDependencyInfo
        { Name := "fooer", Version := "1.2.3", Dir := "/ws/fooer",
          file := "/ws/fooer/package.json", Dependencies := [("foo", "^1.2.3")],
          DevDependencies := [("devBaz", "file:C:/devBaz")], OptionalDependencies := [],
          PeerDependencies := [] } "devBaz").1.Protocol ':' ∧
      (newDependencyInfo
        { Name := "fooer", Version := "1.2.3", Dir := "/ws/fooer",
          file := "/ws/fooer/package.json", Dependencies := [("foo", "^1.2.3")],
          DevDependencies := [("devBaz", "file:C:/devBaz")], OptionalDependencies := [],
          PeerDependencies := [] } "devBaz").1.Protocol ++ ":" ++
      (newDependencyInfo
        { Name := "fooer", Version := "1.2.3", Dir := "/ws/fooer",
          file := "/ws/fooer/package.json", Dependencies := [("foo", "^1.2.3")],
          DevDependencies := [("devBaz", "file:C:/devBaz")], OptionalDependencies := [],
          PeerDependencies := [] } "devBaz").1.VersionRange = "file:C:/devBaz") ∧
    (¬ strings.Contains "file:C:/devBaz" ':' →
      (newDependencyInfo
        { Name := "fooer", Version := "1.2.3", Dir := "/ws/fooer",
          file := "/ws/fooer/package.json", Dependencies := [("foo", "^1.2.3")],
          DevDependencies := [("devBaz", "file:C:/devBaz")], OptionalDependencies := [],
          PeerDependencies := [] } "devBaz").1.Protocol = "" ∧
      (newDependencyInfo
        { Name := "fooer", Version := "1.2.3", Dir := "/ws/fooer",
          file := "/ws/fooer/package.json", Dependencies := [("foo", "^1.2.3")],
          DevDependencies := [("devBaz", "file:C:/devBaz")], OptionalDependencies := [],
          PeerDependencies := [] } "devBaz").1.VersionRange = "file:C:/devBaz")) :=
  ⟨by decide, by decide,
    C2_split_at_first_colon _ "devBaz" "devDependencies" "file:C:/devBaz" (by decide)⟩

/-- C3: when `n` is a key of none of the four dependency mappings, `newDependencyInfo`
returns the zero-valued descriptor, every field the empty string, with `ok = false`. -/
theorem C3_absent_gives_zero_value (M : PackageJSON) (n : String)
    (h1 : ¬ hasKey M.Dependencies n) (h2 : ¬ hasKey M.DevDependencies n)
    (h3 : ¬ hasKey M.OptionalDependencies n) (h4 : ¬ hasKey M.PeerDependencies n) :
    newDependencyInfo M n =
      ({ Name := "", VersionRange := "", Key := "", Protocol := "",
         FromName := "", FromVersion := "", FromFile := "" }, false) :=
  newDependencyInfo_of_none M n ((lookupDependency_eq_none_iff M n).2 ⟨h1, h2, h3, h4⟩)

/-- Witness for C3: the name `Unknwon` in a manifest that declares other dependencies. -/
theorem C3_absent_gives_zero_value_witness :
    newDependencyInfo
      { Name := "fooer", Version := "1.2.3", Dir := "/ws/fooer",
        file := "/ws/fooer/package.json", Dependencies := [("foo", "^1.2.3")],
        DevDependencies := [("devBaz", "file:../devBaz")],
        OptionalDependencies := [("optFoo", "~7.8.9")],
        PeerDependencies := [("peerFoo", "10.11.x")] } "Unknwon" =
      ({ Name := "", VersionRange := "", Key := "", Protocol := "",
         FromName := "", FromVersion := "", FromFile := "" }, false) :=
  C3_absent_gives_zero_value _ "Unknwon" (by decide) (by decide) (by decide) (by decide)

/-! ## Lemmas on `SatisfyWorskpaceDep` -/

theorem errors.Is_Errorf (err : GoError) (rest : String) :
    errors.Is (fmt.Errorf err rest) err = true := by
  cases err with
  | new msg => simp [fmt.Errorf, errors.Is]
  | wrap msg inner => simp [fmt.Errorf, errors.Is]

/-- Once the names agree, the root resolves and the membership check passes, the result
is that of the protocol dispatch. -/
theorem SatisfyWorskpaceDep_of_member (env : Env) (p : PackageJSON) (dep : PackageJsonDepInfo)
    (w root : String) (hname : p.Name = dep.Name)
    (hroot : resolveWorkspaceRoot env dep w = .ok root)
    (hmem : membershipPasses root p.Dir) :
    SatisfyWorskpaceDep env p dep w = satisfyProtocol env p dep := by
  unfold SatisfyWorskpaceDep
  rw [if_neg (by simpa using hname), hroot]
  unfold membershipPasses at hmem
  simp only
  split
  · next h => rw [h] at hmem; exact absurd hmem (by simp)
  · next h => rw [h] at hmem; exact absurd hmem (by simp)
  · rfl

/-- When the membership check reports no match and no error, the result is
`ErrOutsideWokspace`. -/
theorem SatisfyWorskpaceDep_of_no_match (env : Env) (p : PackageJSON)
    (dep : PackageJsonDepInfo) (w root : String) (hname : p.Name = dep.Name)
    (hroot : resolveWorkspaceRoot env dep w = .ok root)
    (hmatch : doublestar.Match (filepath.Join root "**") p.Dir = (false, none)) :
    SatisfyWorskpaceDep env p dep w = (false, some ErrOutsideWokspace) := by
  unfold SatisfyWorskpaceDep
  rw [if_neg (by simpa using hname), hroot]
  simp only [hmatch]

theorem satisfyProtocol_false_has_error (env : Env) (p : PackageJSON)
    (dep : PackageJsonDepInfo) (h : (satisfyProtocol env p dep).1 = false) :
    (satisfyProtocol env p dep).2 ≠ none := by
  unfold satisfyProtocol at h ⊢
  by_cases h1 : dep.Protocol = "workspace"
  · simp [h1] at h
  · by_cases h2 : dep.Protocol = "file" ∨ dep.Protocol = "link" ∨ dep.Protocol = "portal"
    · by_cases h3 : filepath.Join (filepath.Dir dep.FromFile) dep.VersionRange = p.Dir
      · simp [h1, h2, h3] at h
      · simp [h1, h2, h3]
    · by_cases h4 : dep.Protocol ≠ "" ∧ dep.Protocol ≠ "npm"
      · simp [h1, h2, h4]
      · by_cases h5 : dep.VersionRange = "*" ∨ dep.VersionRange = "^" ∨ dep.VersionRange = "~"
        · simp [h1, h2, h4, h5] at h
        · rw [if_neg h1, if_neg h2, if_neg h4, if_neg h5] at h ⊢
          cases hc : env.NewConstraint dep.VersionRange with
          | none => simp
          | some c =>
            cases hv : env.NewVersion p.Version with
            | none => simp
            | some v =>
              by_cases hk : env.Check c v = true
              · simp [hc, hv, hk] at h
              · simp [hk]

/-- The result for a local protocol once the guards are passed: structural equality of
the resolved path and the candidate directory decides. -/
theorem SatisfyWorskpaceDep_local_protocol (env : Env) (p : PackageJSON)
    (dep : PackageJsonDepInfo) (w root : String) (hname : p.Name = dep.Name)
    (hproto : dep.Protocol = "file" ∨ dep.Protocol = "link" ∨ dep.Protocol = "portal")
    (hroot : resolveWorkspaceRoot env dep w = .ok root)
    (hmem : membershipPasses root p.Dir) :
    SatisfyWorskpaceDep env p dep w =
      if filepath.Join (filepath.Dir dep.FromFile) dep.VersionRange = p.Dir then (true, none)
      else (false, some (fmt.Errorf ErrMismatchPath
        (": Package " ++ dep.Name ++ " path does not match workspace package " ++ p.Name))) := by
  have hnw : dep.Protocol ≠ "workspace" := by
    rcases hproto with h | h | h <;> rw [h] <;> decide
  rw [SatisfyWorskpaceDep_of_member env p dep w root hname hroot hmem]
  unfold satisfyProtocol
  rw [if_neg hnw, if_pos hproto]
  by_cases hp : filepath.Join (filepath.Dir dep.FromFile) dep.VersionRange = p.Dir
  · simp [hp]
  · simp [hp]

/-! ## Claims on `SatisfyWorskpaceDep` -/

/-- C4: when the candidate name differs from the descriptor name, `SatisfyWorskpaceDep`
returns verdict `false` with an error that wraps `ErrMismatchName`, whatever the
protocol, version range, paths and workspace root are. -/
theorem C4_name_mismatch_dominates (env : Env) (p : PackageJSON) (dep : PackageJsonDepInfo)
    (w : String) (h : p.Name ≠ dep.Name) :
    (SatisfyWorskpaceDep env p dep w).1 = false ∧
    ∃ err, (SatisfyWorskpaceDep env p dep w).2 = some err ∧
      errors.Is err ErrMismatchName = true := by
  unfold SatisfyWorskpaceDep
  rw [if_pos h]
  exact ⟨rfl, _, rfl, errors.Is_Errorf _ _⟩

/-- Witness for C4: candidate `foo` against a `workspace:` descriptor named `bar`. -/
theorem C4_name_mismatch_dominates_witness :
    (SatisfyWorskpaceDep exampleEnv (candidate "foo" "1.0.0" "/ws/foo")
      { Name := "bar", VersionRange := "*", Key := "dependencies", Protocol := "workspace",
        FromName := "a", FromVersion := "1.0.0", FromFile := "/ws/a/package.json" }
      "/ws").1 = false ∧
    ∃ err, (SatisfyWorskpaceDep exampleEnv (candidate "foo" "1.0.0" "/ws/foo")
      { Name := "bar", VersionRange := "*", Key := "dependencies", Protocol := "workspace",
        FromName := "a", FromVersion := "1.0.0", FromFile := "/ws/a/package.json" }
      "/ws").2 = some err ∧ errors.Is err ErrMismatchName = true :=
  C4_name_mismatch_dominates exampleEnv _ _ "/ws" (by decide)

/-- C5: whenever `SatisfyWorskpaceDep` returns verdict `false` it also returns a non-nil
error; no input produces `(false, nil)`. -/
theorem C5_false_verdict_has_error (env : Env) (p : PackageJSON) (dep : PackageJsonDepInfo)
    (w : String) (h : (SatisfyWorskpaceDep env p dep w).1 = false) :
    (SatisfyWorskpaceDep env p dep w).2 ≠ none := by
  by_cases hname : p.Name = dep.Name
  · cases hroot : resolveWorkspaceRoot env dep w with
    | error err => simp [SatisfyWorskpaceDep, hname, hroot]
    | ok root =>
      cases hm : doublestar.Match (filepath.Join root "**") p.Dir with
      | mk ok err =>
        cases ok with
        | true =>
          have hmem : membershipPasses root p.Dir := by simp [membershipPasses, hm]
          rw [SatisfyWorskpaceDep_of_member env p dep w root hname hroot hmem] at h ⊢
          exact satisfyProtocol_false_has_error env p dep h
        | false =>
          cases err with
          | none => simp [SatisfyWorskpaceDep, hname, hroot, hm]
          | some e => simp [SatisfyWorskpaceDep, hname, hroot, hm]
  · simp [SatisfyWorskpaceDep, hname]

/-- Witness for C5: a candidate outside the workspace root, verdict `false`. -/
theorem C5_false_verdict_has_error_witness :
    (SatisfyWorskpaceDep exampleEnv (candidate "bar" "1.0.0" "/outside/pkg")
      { Name := "bar", VersionRange := "*", Key := "dependencies", Protocol := "workspace",
        FromName := "a", FromVersion := "1.0.0", FromFile := "/ws/a/package.json" }
      "/ws").2 ≠ none :=
  C5_false_verdict_has_error exampleEnv _ _ "/ws" (by decide)

/-- C6: with matching names, protocol `workspace`, a non-empty workspace root whose
resolution succeeds and a passing membership check, `SatisfyWorskpaceDep` returns
`(true, nil)` for every candidate version and every version range. -/
theorem C6_workspace_protocol_accepts (env : Env) (p : PackageJSON)
    (dep : PackageJsonDepInfo) (w root : String) (hname : p.Name = dep.Name)
    (hproto : dep.Protocol = "workspace") (hw : w ≠ "")
    (hroot : resolveWorkspaceRoot env dep w = .ok root)
    (hmem : membershipPasses root p.Dir) (version range : String) :
    SatisfyWorskpaceDep env { p with Version := version }
      { dep with VersionRange := range } w = (true, none) := by
  have hroot2 : resolveWorkspaceRoot env { dep with VersionRange := range } w = .ok root := by
    simpa [resolveWorkspaceRoot, hw] using hroot
  have hres := SatisfyWorskpaceDep_of_member env { p with Version := version }
    { dep with VersionRange := range } w root hname hroot2 hmem
  rw [hres]
  unfold satisfyProtocol
  rw [if_pos hproto]

/-- Witness for C6: a `workspace:*` descriptor, relative root `ws` resolved against the
working directory `/home/user`, candidate in `/home/user/ws/bar` with a version that is
no semantic version. -/
theorem C6_workspace_protocol_accepts_witness :
    SatisfyWorskpaceDep exampleEnv
      { candidate "bar" "1.0.0" "/home/user/ws/bar" with Version := "not-a-version" }
      { ({ Name := "bar", VersionRange := "*", Key := "dependencies", Protocol := "workspace",
           FromName := "a", FromVersion := "1.0.0", FromFile := "/home/user/ws/a/package.json" }
          : PackageJsonDepInfo) with VersionRange := "^9" } "ws" = (true, none) :=
  C6_workspace_protocol_accepts exampleEnv (candidate "bar" "1.0.0" "/home/user/ws/bar")
    { Name := "bar", VersionRange := "*", Key := "dependencies", Protocol := "workspace",
      FromName := "a", FromVersion := "1.0.0", FromFile := "/home/user/ws/a/package.json" }
    "ws" "/home/user/ws" (by decide) (by decide) (by decide) (by decide) (by decide)
    "not-a-version" "^9"

/-- C7: with matching names, protocol `file`, `link` or `portal`, and a passing
membership check, `SatisfyWorskpaceDep` returns `(true, nil)` if and only if
`filepath.Join(filepath.Dir(dep.FromFile), dep.VersionRange)` equals `p.Dir`, and
otherwise verdict `false` with an error wrapping `ErrMismatchPath`. -/
theorem C7_local_protocol_path_equality (env : Env) (p : PackageJSON)
    (dep : PackageJsonDepInfo) (w root : String) (hname : p.Name = dep.Name)
    (hproto : dep.Protocol = "file" ∨ dep.Protocol = "link" ∨ dep.Protocol = "portal")
    (hroot : resolveWorkspaceRoot env dep w = .ok root)
    (hmem : membershipPasses root p.Dir) :
    (SatisfyWorskpaceDep env p dep w = (true, none) ↔
      filepath.Join (filepath.Dir dep.FromFile) dep.VersionRange = p.Dir) ∧
    (filepath.Join (filepath.Dir dep.FromFile) dep.VersionRange ≠ p.Dir →
      (SatisfyWorskpaceDep env p dep w).1 = false ∧
      ∃ err, (SatisfyWorskpaceDep env p dep w).2 = some err ∧
        errors.Is err ErrMismatchPath = true) := by
  rw [SatisfyWorskpaceDep_local_protocol env p dep w root hname hproto hroot hmem]
  by_cases hp : filepath.Join (filepath.Dir dep.FromFile) dep.VersionRange = p.Dir
  · simp [hp]
  · simp only [hp, if_false, Prod.mk.injEq, Bool.false_eq_true, false_and, false_iff,
      not_false_eq_true, ne_eq, forall_const, true_and]
    exact ⟨_, rfl, errors.Is_Errorf _ _⟩

/-- Witness for C7: root `/ws`, declaring manifest `/ws/a/package.json`, range `../bar`;
candidate directory `/ws/bar` is accepted and `/ws/other` is rejected with a path
mismatch. -/
theorem C7_local_protocol_path_equality_witness :
    SatisfyWorskpaceDep exampleEnv (candidate "bar" "1.0.0" "/ws/bar")
      { Name := "bar", VersionRange := "../bar", Key := "dependencies", Protocol := "file",
        FromName := "a", FromVersion := "1.0.0", FromFile := "/ws/a/package.json" }
      "/ws" = (true, none) ∧
    ((SatisfyWorskpaceDep exampleEnv (candidate "bar" "1.0.0" "/ws/other")
      { Name := "bar", VersionRange := "../bar", Key := "dependencies", Protocol := "file",
        FromName := "a", FromVersion := "1.0.0", FromFile := "/ws/a/package.json" }
      "/ws").1 = false ∧
    ∃ err, (SatisfyWorskpaceDep exampleEnv (candidate "bar" "1.0.0" "/ws/other")
      { Name := "bar", VersionRange := "../bar", Key := "dependencies", Protocol := "file",
        FromName := "a", FromVersion := "1.0.0", FromFile := "/ws/a/package.json" }
      "/ws").2 = some err ∧ errors.Is err ErrMismatchPath = true) :=
  ⟨(C7_local_protocol_path_equality exampleEnv (candidate "bar" "1.0.0" "/ws/bar")
      { Name := "bar", VersionRange := "../bar", Key := "dependencies", Protocol := "file",
        FromName := "a", FromVersion := "1.0.0", FromFile := "/ws/a/package.json" }
      "/ws" "/ws" (by decide) (by decide) (by decide) (by decide)).1.2 (by decide),
   (C7_local_protocol_path_equality exampleEnv (candidate "bar" "1.0.0" "/ws/other")
      { Name := "bar", VersionRange := "../bar", Key := "dependencies", Protocol := "file",
        FromName := "a", FromVersion := "1.0.0", FromFile := "/ws/a/package.json" }
      "/ws" "/ws" (by decide) (by decide) (by decide) (by decide)).2 (by decide)⟩

/-- C9, counterexample: a `git` descriptor does not yield `ErrRemoteProtocol` for any
candidate and root. A candidate in `/outside/pkg` under root `/ws` is rejected with
`ErrOutsideWokspace`, and a candidate with another name with the name-mismatch error;
the protocol is looked at only after both guards. -/
theorem C9_remote_protocol_counterexample :
    SatisfyWorskpaceDep exampleEnv (candidate "bar" "1.0.0" "/outside/pkg")
      { Name := "bar", VersionRange := "github.com/x/bar", Key := "dependencies",
        Protocol := "git", FromName := "a", FromVersion := "1.0.0",
        FromFile := "/ws/a/package.json" } "/ws" = (false, some ErrOutsideWokspace) ∧
    SatisfyWorskpaceDep exampleEnv (candidate "foo" "1.0.0" "/ws/foo")
      { Name := "bar", VersionRange := "github.com/x/bar", Key := "dependencies",
        Protocol := "git", FromName := "a", FromVersion := "1.0.0",
        FromFile := "/ws/a/package.json" } "/ws" =
      (false, some (fmt.Errorf ErrMismatchName ": foo!= bar")) ∧
    ErrOutsideWokspace ≠ ErrRemoteProtocol ∧
    fmt.Errorf ErrMismatchName ": foo!= bar" ≠ ErrRemoteProtocol := by
  decide

/-- C9, amended: for a descriptor whose protocol is none of the empty string, `npm`,
`workspace`, `file`, `link`, `portal`, once the names match, the workspace root resolves
and the membership check passes, `SatisfyWorskpaceDep` returns
`(false, ErrRemoteProtocol)`. -/
theorem C9_remote_protocol_after_guards (env : Env) (p : PackageJSON)
    (dep : PackageJsonDepInfo) (w root : String) (hname : p.Name = dep.Name)
    (h1 : dep.Protocol ≠ "") (h2 : dep.Protocol ≠ "npm") (h3 : dep.Protocol ≠ "workspace")
    (h4 : dep.Protocol ≠ "file") (h5 : dep.Protocol ≠ "link") (h6 : dep.Protocol ≠ "portal")
    (hroot : resolveWorkspaceRoot env dep w = .ok root)
    (hmem : membershipPasses root p.Dir) :
    SatisfyWorskpaceDep env p dep w = (false, some ErrRemoteProtocol) := by
  rw [SatisfyWorskpaceDep_of_member env p dep w root hname hroot hmem]
  unfold satisfyProtocol
  rw [if_neg h3, if_neg (by simp [h4, h5, h6]), if_pos ⟨h1, h2⟩]

/-- Witness for C9 (amended): a `git` descriptor, candidate `/ws/bar` under root `/ws`. -/
theorem C9_remote_protocol_after_guards_witness :
    SatisfyWorskpaceDep exampleEnv (candidate "bar" "1.0.0" "/ws/bar")
      { Name := "bar", VersionRange := "github.com/x/bar", Key := "dependencies",
        Protocol := "git", FromName := "a", FromVersion := "1.0.0",
        FromFile := "/ws/a/package.json" } "/ws" = (false, some ErrRemoteProtocol) :=
  C9_remote_protocol_after_guards exampleEnv (candidate "bar" "1.0.0" "/ws/bar")
    { Name := "bar", VersionRange := "github.com/x/bar", Key := "dependencies",
      Protocol := "git", FromName := "a", FromVersion := "1.0.0",
      FromFile := "/ws/a/package.json" } "/ws" "/ws" (by decide) (by decide) (by decide)
    (by decide) (by decide) (by decide) (by decide) (by decide) (by decide)

/-! ## Lemmas on `filepath.Clean` -/

theorem filepath.cleanLoop_true_cons (rooted : Bool) (c : Char) (rest out : List Char)
    (dotdot : Nat) :
    cleanLoop rooted true (c :: rest) out dotdot =
      if c = '/' then cleanLoop rooted false rest out dotdot
      else cleanLoop rooted true rest (out ++ [c]) dotdot := by
  conv_lhs => rw [cleanLoop]

theorem filepath.cleanLoop_false_cons_cons (rooted : Bool) (c d : Char)
    (rest2 out : List Char) (dotdot : Nat) :
    cleanLoop rooted false (c :: d :: rest2) out dotdot =
      if c = '/' then cleanLoop rooted false (d :: rest2) out dotdot
      else if c = '.' ∧ d = '/' then cleanLoop rooted false (d :: rest2) out dotdot
      else if c = '.' ∧ d = '.' ∧ (rest2 = [] ∨ rest2.head? = some '/') then
        if dotdot < out.length then
          cleanLoop rooted false rest2 (out.take (backUp out dotdot (out.length - 1))) dotdot
        else if !rooted then
          cleanLoop rooted false rest2
            ((if 0 < out.length then out ++ ['/'] else out) ++ ['.', '.'])
            ((if 0 < out.length then out ++ ['/'] else out) ++ ['.', '.']).length
        else cleanLoop rooted false rest2 out dotdot
      else
        cleanLoop rooted true (d :: rest2)
          ((if (rooted && out.length != 1) || (!rooted && out.length != 0)
            then out ++ ['/'] else out) ++ [c]) dotdot := by
  conv_lhs => rw [cleanLoop]

/-- Appending a separator and a tail `t` to the input of the cleaning loop: when the loop
on `'/' :: t` computes `F out` whatever the mode and the `..` bound, the loop on
`x ++ '/' :: t` computes `F` of the outcome of the loop on `x`. -/
theorem filepath.cleanLoop_append_sep (rooted : Bool) (t : List Char)
    (F : List Char → List Char)
    (hF : ∀ m out dd, cleanLoop rooted m ('/' :: t) out dd = F out) :
    ∀ (n : Nat) (x : List Char), x.length ≤ n → ∀ m out dd,
      cleanLoop rooted m (x ++ '/' :: t) out dd = F (cleanLoop rooted m x out dd) := by
  have hF2 : ∀ out dd, cleanLoop rooted false t out dd = F out := by
    intro out dd
    rw [← hF true out dd]
    simp [cleanLoop]
  have hnil : ∀ m out dd, cleanLoop rooted m ([] ++ '/' :: t) out dd =
      F (cleanLoop rooted m [] out dd) := by
    intro m out dd
    rw [List.nil_append, hF]
    cases m <;> simp [cleanLoop]
  intro n
  induction n with
  | zero =>
    intro x hx m out dd
    have : x = [] := List.length_eq_zero.1 (Nat.le_zero.1 hx)
    subst this
    exact hnil m out dd
  | succ n ih =>
    intro x hx m out dd
    match x, hx with
    | [], _ => exact hnil m out dd
    | [c], _ =>
      cases m
      · by_cases h1 : c = '/'
        · simp [cleanLoop, h1, hF]
        · by_cases h2 : c = '.'
          · simp [cleanLoop, h2, hF]
          · simp [cleanLoop, h1, h2, hF, hF2]
      · by_cases h1 : c = '/'
        · simp [cleanLoop, h1, hF, hF2]
        · simp [cleanLoop, h1, hF, hF2]
    | c :: d :: rest2, hx =>
      have hl1 : (d :: rest2).length ≤ n := by simp at hx ⊢; omega
      have hl2 : rest2.length ≤ n := by simp at hx ⊢; omega
      have ih1 := ih (d :: rest2) hl1
      have ih2 := ih rest2 hl2
      cases m
      · have hcond : (rest2 ++ '/' :: t = [] ∨ (rest2 ++ '/' :: t).head? = some '/') ↔
            (rest2 = [] ∨ rest2.head? = some '/') := by
          cases rest2 <;> simp
        show cleanLoop rooted false (c :: d :: (rest2 ++ '/' :: t)) out dd =
          F (cleanLoop rooted false (c :: d :: rest2) out dd)
        rw [cleanLoop_false_cons_cons, cleanLoop_false_cons_cons]
        simp only [hcond]
        split_ifs <;> first | exact ih1 _ _ _ | exact ih2 _ _ _
      · show cleanLoop rooted true (c :: ((d :: rest2) ++ '/' :: t)) out dd =
          F (cleanLoop rooted true (c :: d :: rest2) out dd)
        rw [cleanLoop_true_cons, cleanLoop_true_cons]
        split_ifs <;> exact ih1 _ _ _

theorem filepath.cleanLoop_trailing_sep (rooted : Bool) (x : List Char) (m : Bool)
    (out : List Char) (dd : Nat) :
    cleanLoop rooted m (x ++ ['/']) out dd = cleanLoop rooted m x out dd :=
  cleanLoop_append_sep rooted [] id (by intro m out dd; cases m <;> simp [cleanLoop])
    x.length x (Nat.le_refl _) m out dd

theorem filepath.cleanChars_trailing_sep (x : List Char) (hx : x ≠ []) :
    cleanChars (x ++ ['/']) = cleanChars x := by
  match x, hx with
  | c :: rest, _ =>
    simp only [List.cons_append, cleanChars]
    rw [← List.cons_append, cleanLoop_trailing_sep, cleanLoop_trailing_sep]

theorem filepath.cleanChars_ne_nil (x : List Char) : cleanChars x ≠ [] := by
  match x with
  | [] => simp [cleanChars]
  | c :: rest =>
    simp only [cleanChars]
    split_ifs <;> simp_all

theorem filepath.Clean_ne_empty (path : String) : Clean path ≠ "" := by
  intro h
  have : (Clean path).data = [] := by rw [h]
  exact cleanChars_ne_nil path.data this

theorem filepath.Dir_ne_empty (path : String) : Dir path ≠ "" := Clean_ne_empty _

theorem filepath.Join_trailing_sep (a b : String) (ha : a ≠ "") :
    Join a (b ++ "/") = Join a b := by
  unfold Join
  rw [if_pos ha, if_pos ha]
  unfold Clean
  congr 1
  have h1 : (a ++ "/" ++ (b ++ "/")).data = (a ++ "/" ++ b).data ++ ['/'] := by
    simp [String.data_append]
  rw [h1]
  apply cleanChars_trailing_sep
  simp [String.data_append]

/-- For a local protocol, a separator appended to the version range leaves the whole
result of `SatisfyWorskpaceDep` unchanged: `filepath.Join` cleans it away. -/
theorem SatisfyWorskpaceDep_range_trailing_sep (env : Env) (p : PackageJSON)
    (dep : PackageJsonDepInfo) (w : String)
    (hproto : dep.Protocol = "file" ∨ dep.Protocol = "link" ∨ dep.Protocol = "portal") :
    SatisfyWorskpaceDep env p { dep with VersionRange := dep.VersionRange ++ "/" } w =
      SatisfyWorskpaceDep env p dep w := by
  have hnw : dep.Protocol ≠ "workspace" := by
    rcases hproto with h | h | h <;> rw [h] <;> decide
  have hprot : satisfyProtocol env p { dep with VersionRange := dep.VersionRange ++ "/" } =
      satisfyProtocol env p dep := by
    unfold satisfyProtocol
    simp only [if_neg hnw, if_pos hproto]
    rw [filepath.Join_trailing_sep _ _ (filepath.Dir_ne_empty _)]
  unfold SatisfyWorskpaceDep
  simp only [resolveWorkspaceRoot, hprot]

/-- C8, counterexample: the candidate directory `/ws/bar/` differs from the resolved path
`/ws/bar` only by a trailing separator and passes the membership check, yet the result
is a path mismatch. -/
theorem C8_trailing_separator_counterexample :
    membershipPasses "/ws" "/ws/bar/" ∧
    filepath.Join (filepath.Dir "/ws/a/package.json") "../bar" ++ "/" = "/ws/bar/" ∧
    SatisfyWorskpaceDep exampleEnv (candidate "bar" "1.0.0" "/ws/bar/")
      { Name := "bar", VersionRange := "../bar", Key := "dependencies", Protocol := "file",
        FromName := "a", FromVersion := "1.0.0", FromFile := "/ws/a/package.json" } "/ws" =
      (false, some (fmt.Errorf ErrMismatchPath
        ": Package bar path does not match workspace package bar")) := by
  decide

/-- C8, amended: for a `file`, `link` or `portal` descriptor with matching names and a
passing membership check, a trailing separator on `dep.VersionRange` does not matter:
when the path resolved from the range equals `p.Dir`, the descriptor with the range
followed by `/` is still answered `(true, nil)`. -/
theorem C8_trailing_separator_on_range (env : Env) (p : PackageJSON)
    (dep : PackageJsonDepInfo) (w root : String) (hname : p.Name = dep.Name)
    (hproto : dep.Protocol = "file" ∨ dep.Protocol = "link" ∨ dep.Protocol = "portal")
    (hroot : resolveWorkspaceRoot env dep w = .ok root)
    (hmem : membershipPasses root p.Dir)
    (hpath : filepath.Join (filepath.Dir dep.FromFile) dep.VersionRange = p.Dir) :
    SatisfyWorskpaceDep env p { dep with VersionRange := dep.VersionRange ++ "/" } w =
      (true, none) := by
  rw [SatisfyWorskpaceDep_range_trailing_sep env p dep w hproto,
    SatisfyWorskpaceDep_local_protocol env p dep w root hname hproto hroot hmem, if_pos hpath]

/-- Witness for C8 (amended): range `../bar` resolves to the candidate directory
`/ws/bar`, and the range `../bar/` is accepted. -/
theorem C8_trailing_separator_on_range_witness :
    SatisfyWorskpaceDep exampleEnv (candidate "bar" "1.0.0" "/ws/bar")
      { ({ Name := "bar", VersionRange := "../bar", Key := "dependencies", Protocol := "file",
           FromName := "a", FromVersion := "1.0.0", FromFile := "/ws/a/package.json" }
          : PackageJsonDepInfo) with VersionRange := "../bar" ++ "/" } "/ws" = (true, none) :=
  C8_trailing_separator_on_range exampleEnv (candidate "bar" "1.0.0" "/ws/bar")
    { Name := "bar", VersionRange := "../bar", Key := "dependencies", Protocol := "file",
      FromName := "a", FromVersion := "1.0.0", FromFile := "/ws/a/package.json" }
    "/ws" "/ws" (by decide) (by decide) (by decide) (by decide) (by decide)

/-! ## Lemmas on `doublestar.Match` for patterns without metacharacters -/

theorem doublestar.isMeta_false (c : Char) (h : isMeta c = false) :
    c ≠ '*' ∧ c ≠ '?' ∧ c ≠ '[' ∧ c ≠ '{' ∧ c ≠ '}' ∧ c ≠ '\\' := by
  simpa [isMeta] using h

theorem doublestar.validateLoop_literal (l : List Char) (h : ∀ c ∈ l, isMeta c = false) :
    validateLoop (l ++ ['/', '*', '*']) 0 false = true := by
  induction l with
  | nil => decide
  | cons c rest ih =>
    obtain ⟨-, -, h3, h4, h5, h6⟩ := isMeta_false c (h c (by simp))
    have ih2 := ih (fun x hx => h x (by simp [hx]))
    rw [List.cons_append, validateLoop.eq_def]
    simp [h3, h4, h5, h6, ih2]

theorem doublestar.step_literal_eq (pattern name : List Char) (s : State) (c : Char)
    (prest : List Char) (hdrop : pattern.drop s.patIdx = c :: prest)
    (hc : isMeta c = false) (hname : name.getD s.nameIdx runeError = c) :
    step pattern name s =
      .next { s with patIdx := s.patIdx + 1, nameIdx := s.nameIdx + 1,
                     startOfSegment := c = '/' } := by
  obtain ⟨h1, h2, h3, h4, -, h6⟩ := isMeta_false c hc
  simp only [List.getD_eq_getElem?_getD] at hname
  simp [step, hdrop, h1, h2, h3, h4, h6, hname]

theorem doublestar.step_literal_ne (pattern name : List Char) (s : State) (c : Char)
    (prest : List Char) (hdrop : pattern.drop s.patIdx = c :: prest)
    (hc : isMeta c = false) (hname : name.getD s.nameIdx runeError ≠ c)
    (hstar : s.starBacktrack = none) (hds : s.doublestarBacktrack = none)
    (hesc : ¬ (0 < s.patIdx ∧ pattern.getD (s.patIdx - 1) runeError = '\\'))
    (hval : doValidatePattern (pattern.drop s.patIdx) = true) :
    step pattern name s = .ret (false, none) := by
  obtain ⟨h1, h2, h3, h4, -, h6⟩ := isMeta_false c hc
  have hname2 : ¬ c = name[s.nameIdx]?.getD runeError := by
    rw [← List.getD_eq_getElem?_getD]; exact fun e => hname e.symm
  simp only [List.getD_eq_getElem?_getD] at hesc
  rw [hdrop] at hval
  simp [step, backtrack, hdrop, h1, h2, h3, h4, h6, hname2, hstar, hds, hesc, hval]

theorem doublestar.doMatch_succ_next (fuel : Nat) (pattern name : List Char) (s s2 : State)
    (hlt : s.nameIdx < name.length) (hstep : step pattern name s = .next s2) :
    doMatch (fuel + 1) pattern name s = doMatch fuel pattern name s2 := by
  conv_lhs => rw [doMatch]
  simp [hlt, hstep]

theorem doublestar.doMatch_succ_ret (fuel : Nat) (pattern name : List Char) (s : State)
    (r : Bool × Option GoError)
    (hlt : s.nameIdx < name.length) (hstep : step pattern name s = .ret r) :
    doMatch (fuel + 1) pattern name s = r := by
  conv_lhs => rw [doMatch]
  simp [hlt, hstep]

theorem doublestar.doMatch_succ_end (fuel : Nat) (pattern name : List Char) (s : State)
    (hge : ¬ s.nameIdx < name.length) :
    doMatch (fuel + 1) pattern name s =
      isZeroLengthPattern (pattern.length + 1) (pattern.drop s.patIdx) := by
  conv_lhs => rw [doMatch]
  simp [hge]

theorem doublestar.isZeroLengthPattern_literal (n : Nat) (c : Char) (l : List Char)
    (hc : isMeta c = false) (hl : ∀ x ∈ l, isMeta x = false) :
    isZeroLengthPattern (n + 1) (c :: l ++ ['/', '*', '*']) = (false, none) := by
  obtain ⟨h1, -, -, h4, -, -⟩ := isMeta_false c hc
  have hv : doValidatePattern (c :: l ++ ['/', '*', '*']) = true :=
    validateLoop_literal (c :: l) (by
      intro x hx
      rcases List.mem_cons.1 hx with e | e
      · rw [e]; exact hc
      · exact hl x e)
  have hne : ¬ (c :: l ++ ['/', '*', '*'] = [] ∨ c :: l ++ ['/', '*', '*'] = ['*'] ∨
      c :: l ++ ['/', '*', '*'] = ['*', '*'] ∨ c :: l ++ ['/', '*', '*'] = ['/', '*', '*'] ∨
      c :: l ++ ['/', '*', '*'] = ['*', '*', '/'] ∨
      c :: l ++ ['/', '*', '*'] = ['/', '*', '*', '/']) := by
    intro h
    have hlen : (c :: l ++ ['/', '*', '*']).length = l.length + 4 := by simp
    rcases h with h | h | h | h | h | h
    · simp at h
    · rw [h] at hlen; simp at hlen
    · rw [h] at hlen; simp at hlen
    · rw [h] at hlen; simp at hlen
    · rw [h] at hlen; simp at hlen
    · have hl0 : l = [] := by
        have h2 := congrArg List.length h
        simp only [List.length_cons, List.length_append, List.length_nil] at h2
        exact List.length_eq_zero.1 (by omega)
      subst hl0
      revert h
      simp
  rw [isZeroLengthPattern, if_neg hne]
  · rw [List.cons_append] at hv
    simp [hv]
  · intro prest heq
    rw [List.cons_append] at heq
    exact h4 (List.cons.inj heq).1

theorem doublestar.not_escaped_after (pre rest : List Char) (h : '\\' ∉ pre) :
    ¬ (0 < pre.length ∧ (pre ++ rest).getD (pre.length - 1) runeError = '\\') := by
  rintro ⟨hpos, he⟩
  have hlt : pre.length - 1 < pre.length := by omega
  rw [List.getD_eq_getElem?_getD, List.getElem?_append_left hlt,
    List.getElem?_eq_getElem hlt] at he
  simp only [Option.getD_some] at he
  exact h (he ▸ List.getElem_mem hlt)

/-- The matcher on a pattern `l ++ "/**"` whose part `l` holds no metacharacter, started
after a common part `pre` of pattern and name: the name matches exactly when what is
left of it is `l` or begins with `l` and a separator. -/
theorem doublestar.doMatch_literal (lrest : List Char) :
    ∀ (pre nrest : List Char) (sos : Bool) (fuel : Nat),
      (∀ c ∈ lrest, isMeta c = false) → '\\' ∉ pre → lrest.length + 3 ≤ fuel →
      doMatch fuel (pre ++ (lrest ++ ['/', '*', '*'])) (pre ++ nrest)
        { doublestarBacktrack := none, starBacktrack := none, patIdx := pre.length,
          nameIdx := pre.length, startOfSegment := sos } =
        (decide (nrest = lrest ∨ (lrest ++ ['/']) <+: nrest), none) := by
  induction lrest with
  | nil =>
    intro pre nrest sos fuel _ hpre hfuel
    obtain ⟨f, rfl⟩ : ∃ f, fuel = f + 1 := ⟨fuel - 1, by omega⟩
    have hdrop : (pre ++ ([] ++ ['/', '*', '*'])).drop pre.length = ['/', '*', '*'] := by simp
    cases nrest with
    | nil =>
      rw [doMatch_succ_end _ _ _ _ (by simp)]
      simp only [hdrop]
      simp [isZeroLengthPattern]
    | cons d nrest2 =>
      have hlt : pre.length < (pre ++ d :: nrest2).length := by simp
      have hget : (pre ++ d :: nrest2).getD pre.length runeError = d := by
        rw [List.getD_eq_getElem?_getD, List.getElem?_append_right (Nat.le_refl _)]
        simp
      by_cases hd : d = '/'
      · subst hd
        rw [doMatch_succ_next f _ _ _ _ hlt
          (step_literal_eq _ _ _ '/' ['*', '*'] hdrop (by decide) hget)]
        obtain ⟨g, rfl⟩ : ∃ g, f = g + 1 := ⟨f - 1, by omega⟩
        have hdrop1 : (pre ++ ([] ++ ['/', '*', '*'])).drop (pre.length + 1) = ['*', '*'] := by
          rw [← List.drop_drop, hdrop]
          rfl
        cases nrest2 with
        | nil =>
          rw [doMatch_succ_end _ _ _ _ (by simp)]
          simp only [hdrop1]
          simp [isZeroLengthPattern]
        | cons e nrest3 =>
          rw [doMatch_succ_ret g _ _ _ (true, none) (by simp) (by simp [step, hdrop1])]
          simp
      · rw [doMatch_succ_ret f _ _ _ (false, none) hlt
          (step_literal_ne _ _ _ '/' ['*', '*'] hdrop (by decide) (by rw [hget]; exact hd)
            rfl rfl (not_escaped_after pre _ hpre) (by rw [hdrop]; decide))]
        have hd2 : ¬ '/' = d := fun e => hd e.symm
        simp [hd2]
  | cons c lrest2 ih =>
    intro pre nrest sos fuel hl hpre hfuel
    obtain ⟨f, rfl⟩ : ∃ f, fuel = f + 1 := ⟨fuel - 1, by omega⟩
    have hc : isMeta c = false := hl c (by simp)
    have hl2 : ∀ x ∈ lrest2, isMeta x = false := fun x hx => hl x (by simp [hx])
    have hdrop : (pre ++ (c :: lrest2 ++ ['/', '*', '*'])).drop pre.length =
        c :: (lrest2 ++ ['/', '*', '*']) := by simp
    cases nrest with
    | nil =>
      rw [doMatch_succ_end _ _ _ _ (by simp)]
      simp only [hdrop]
      rw [← List.cons_append, isZeroLengthPattern_literal _ c lrest2 hc hl2]
      simp
    | cons d nrest2 =>
      have hlt : pre.length < (pre ++ d :: nrest2).length := by simp
      have hget : (pre ++ d :: nrest2).getD pre.length runeError = d := by
        rw [List.getD_eq_getElem?_getD, List.getElem?_append_right (Nat.le_refl _)]
        simp
      by_cases hd : d = c
      · subst hd
        rw [doMatch_succ_next f _ _ _ _ hlt (step_literal_eq _ _ _ d _ hdrop hc hget)]
        have hpre2 : '\\' ∉ pre ++ [d] := by
          intro hm
          rcases List.mem_append.1 hm with e | e
          · exact hpre e
          · exact (isMeta_false d hc).2.2.2.2.2 (List.mem_singleton.1 e).symm
        have h := ih (pre ++ [d]) nrest2 (decide (d = '/')) f hl2 hpre2
          (by simp at hfuel ⊢; omega)
        simp only [List.append_assoc, List.singleton_append, List.length_append,
          List.length_singleton] at h
        simp only [List.cons_append]
        rw [h]
        congr 1
        simp [List.cons_prefix_cons]
      · have hv : doValidatePattern ((pre ++ (c :: lrest2 ++ ['/', '*', '*'])).drop pre.length)
            = true := by
          rw [hdrop, ← List.cons_append]
          exact validateLoop_literal (c :: lrest2) hl
        rw [doMatch_succ_ret f _ _ _ (false, none) hlt
          (step_literal_ne _ _ _ c _ hdrop hc (by rw [hget]; exact hd)
            rfl rfl (not_escaped_after pre _ hpre) hv)]
        have hd2 : ¬ c = d := fun e => hd e.symm
        simp [hd, hd2, List.cons_prefix_cons]

theorem doublestar.le_matchFuel (pattern name : List Char) :
    pattern.length + name.length + 2 ≤ matchFuel pattern name :=
  Nat.le_self_pow (by decide) _

theorem doublestar.Match_literal (pattern dir : String) (l : List Char)
    (hpat : pattern.data = l ++ ['/', '*', '*']) (hl : ∀ c ∈ l, isMeta c = false) :
    Match pattern dir = (decide (dir.data = l ∨ (l ++ ['/']) <+: dir.data), none) := by
  have hfuel : l.length + 3 ≤ matchFuel pattern.data dir.data := by
    have h1 := le_matchFuel pattern.data dir.data
    have h2 : pattern.data.length = l.length + 3 := by rw [hpat]; simp
    omega
  have h := doMatch_literal l [] dir.data true (matchFuel pattern.data dir.data) hl
    (by simp) hfuel
  simp only [List.nil_append, List.length_nil] at h
  unfold Match
  generalize matchFuel pattern.data dir.data = fuel at h ⊢
  rw [hpat]
  exact h

/-! ## Lemmas on `filepath.Join` with `**` for an absolute root -/

theorem filepath.backUp_ge (out : List Char) (dotdot : Nat) :
    ∀ w, dotdot ≤ w → dotdot ≤ backUp out dotdot w := by
  intro w
  induction w with
  | zero => intro h; simpa [backUp] using h
  | succ w ih =>
    intro h
    rw [backUp]
    split
    · next hc => exact ih (by omega)
    · exact h

theorem filepath.head?_take_of_pos (out : List Char) (k : Nat) (hk : 1 ≤ k) :
    (out.take k).head? = out.head? := by
  cases out with
  | nil => simp
  | cons a rest =>
    obtain ⟨j, rfl⟩ : ∃ j, k = j + 1 := ⟨k - 1, by omega⟩
    simp

theorem filepath.head?_append_of_head? (out extra : List Char) (h : out.head? = some '/') :
    (out ++ extra).head? = some '/' := by
  cases out with
  | nil => simp at h
  | cons a rest => simpa using h

/-- For a rooted path the output buffer keeps its leading separator. -/
theorem filepath.cleanLoop_rooted_head :
    ∀ (n : Nat) (x : List Char), x.length ≤ n → ∀ m out,
      out.head? = some '/' → (cleanLoop true m x out 1).head? = some '/' := by
  intro n
  induction n with
  | zero =>
    intro x hx m out hout
    have : x = [] := List.length_eq_zero.1 (Nat.le_zero.1 hx)
    subst this
    cases m <;> simpa [cleanLoop] using hout
  | succ n ih =>
    intro x hx m out hout
    have happ1 : ∀ e1, (out ++ e1).head? = some '/' := fun e1 =>
      head?_append_of_head? _ _ hout
    have happ2 : ∀ e1 e2, (out ++ e1 ++ e2).head? = some '/' := fun e1 e2 =>
      head?_append_of_head? _ _ (happ1 e1)
    match x, hx with
    | [], _ => cases m <;> simpa [cleanLoop] using hout
    | [c], _ =>
      cases m
      · simp only [cleanLoop]
        split_ifs <;> first | exact hout | exact happ1 _ | exact happ2 _ _
      · simp only [cleanLoop]
        split_ifs <;> first | exact hout | exact happ1 _
    | c :: d :: rest2, hx =>
      have hl1 : (d :: rest2).length ≤ n := by simp at hx ⊢; omega
      have hl2 : rest2.length ≤ n := by simp at hx ⊢; omega
      cases m
      · rw [cleanLoop_false_cons_cons]
        simp only [Bool.not_true, Bool.false_eq_true, if_false]
        split_ifs with h1 h2 h3 h4
        · exact ih _ hl1 _ _ hout
        · exact ih _ hl1 _ _ hout
        · apply ih _ hl2
          rw [head?_take_of_pos _ _ (backUp_ge _ _ _ (by omega))]
          exact hout
        · exact ih _ hl2 _ _ hout
        · exact ih _ hl1 _ _ (happ2 _ _)
        · exact ih _ hl1 _ _ (happ1 _)
      · rw [cleanLoop_true_cons]
        split_ifs
        · exact ih _ hl1 _ _ hout
        · exact ih _ hl1 _ _ (happ1 _)

theorem filepath.cleanLoop_stars (m : Bool) (out : List Char) (dd : Nat) :
    cleanLoop true m ('/' :: ['*', '*']) out dd =
      (if out.length ≠ 1 then out ++ ['/'] else out) ++ ['*', '*'] := by
  cases m <;> simp [cleanLoop]

/-- Joining `**` to an absolute root whose cleaned form is not `/`: the cleaned root
followed by `/**`. -/
theorem filepath.Join_stars_of_abs (R : String) (habs : IsAbs R = true)
    (hroot : Clean R ≠ "/") :
    (Join R "**").data = (Clean R).data ++ ['/', '*', '*'] := by
  have hR : R.data.head? = some '/' := by simpa [IsAbs] using habs
  obtain ⟨rest, hrest⟩ : ∃ rest, R.data = '/' :: rest := by
    cases hd : R.data with
    | nil => rw [hd] at hR; simp at hR
    | cons a rest =>
      rw [hd] at hR
      simp at hR
      exact ⟨rest, by rw [hR]⟩
  have hne : R ≠ "" := by
    intro e
    rw [e] at hrest
    simp at hrest
  have hhead := cleanLoop_rooted_head rest.length rest (Nat.le_refl _) false ['/'] rfl
  have hlen : (cleanLoop true false rest ['/'] 1).length ≠ 0 := by
    intro e
    rw [List.length_eq_zero.1 e] at hhead
    simp at hhead
  have hclean : (Clean R).data = cleanLoop true false rest ['/'] 1 := by
    simp [Clean, cleanChars, hrest, hlen]
  have hlen1 : (cleanLoop true false rest ['/'] 1).length ≠ 1 := by
    intro e
    apply hroot
    apply String.ext
    rw [hclean]
    obtain ⟨a, ha⟩ := List.length_eq_one.1 e
    rw [ha] at hhead ⊢
    simp only [List.head?_cons, Option.some.injEq] at hhead
    rw [hhead]
  have happ := cleanLoop_append_sep true ['*', '*']
    (fun out => (if out.length ≠ 1 then out ++ ['/'] else out) ++ ['*', '*'])
    (fun m out dd => cleanLoop_stars m out dd) rest.length rest (Nat.le_refl _) false ['/'] 1
  simp only [if_pos hlen1] at happ
  have hdata : (R ++ "/" ++ "**").data = '/' :: (rest ++ '/' :: ['*', '*']) := by
    simp [String.data_append, hrest]
  have hjoin : (Clean (R ++ "/" ++ "**")).data =
      cleanLoop true false rest ['/'] 1 ++ ['/'] ++ ['*', '*'] := by
    simp [Clean, cleanChars, hdata, happ]
  unfold Join
  rw [if_pos hne, hjoin, hclean]
  simp

theorem resolveWorkspaceRoot_of_abs (env : Env) (dep : PackageJsonDepInfo) (R : String)
    (habs : filepath.IsAbs R = true) : resolveWorkspaceRoot env dep R = .ok R := by
  have hne : R ≠ "" := by
    intro e
    rw [e] at habs
    exact absurd habs (by decide)
  simp [resolveWorkspaceRoot, hne, habs]

/-- The membership check for an absolute root whose cleaned form is not `/` and holds no
glob metacharacter: the match succeeds exactly for the directories nested under the
cleaned root, and never reports an error. -/
theorem membership_of_literal_root (R dir : String) (habs : filepath.IsAbs R = true)
    (hroot : filepath.Clean R ≠ "/")
    (hmeta : ∀ c ∈ (filepath.Clean R).data, doublestar.isMeta c = false) :
    doublestar.Match (filepath.Join R "**") dir =
      (decide (isNestedUnder (filepath.Clean R) dir), none) := by
  rw [doublestar.Match_literal _ dir _ (filepath.Join_stars_of_abs R habs hroot) hmeta]
  congr 1
  unfold isNestedUnder
  apply decide_eq_decide.2
  constructor
  · rintro (h | h)
    · exact Or.inl (String.ext h)
    · exact Or.inr h
  · rintro (h | h)
    · exact Or.inl (by rw [h])
    · exact Or.inr h

/-- C10, at the failing input: the root `/*` is absolute and the candidate directory
`/outside/pkg` is not `/*` followed by nested segments, so the claim asks for
`(false, ErrOutsideWokspace)`; the code puts the root unescaped into the glob pattern
`/*/**`, which matches the directory, and the `workspace:` descriptor is accepted with
`(true, nil)`. -/
theorem C10_glob_root_accepts_outside_directory :
    filepath.IsAbs "/*" = true ∧ ¬ isNestedUnder "/*" "/outside/pkg" ∧
    SatisfyWorskpaceDep exampleEnv (candidate "bar" "1.0.0" "/outside/pkg")
      { Name := "bar", VersionRange := "*", Key := "dependencies", Protocol := "workspace",
        FromName := "a", FromVersion := "1.0.0", FromFile := "/ws/a/package.json" }
      "/*" = (true, none) := by
  decide

/-- Where the root holds no glob metacharacter the containment check rejects as the
documentation says. With matching names, for every absolute workspace root `R` whose
cleaned form `filepath.Clean(R)` is not `/` and holds none of `*`, `?`, `[`, `{`, `}`,
`\`, and every `p.Dir` that is neither the cleaned root nor the cleaned root followed by
a separator and more, `SatisfyWorskpaceDep` returns `(false, ErrOutsideWokspace)`,
whatever the protocol and version range are. -/
theorem outside_workspace_of_literal_root (env : Env) (p : PackageJSON)
    (dep : PackageJsonDepInfo) (R : String) (hname : p.Name = dep.Name)
    (habs : filepath.IsAbs R = true) (hroot : filepath.Clean R ≠ "/")
    (hmeta : ∀ c ∈ (filepath.Clean R).data, doublestar.isMeta c = false)
    (hout : ¬ isNestedUnder (filepath.Clean R) p.Dir) :
    SatisfyWorskpaceDep env p dep R = (false, some ErrOutsideWokspace) := by
  apply SatisfyWorskpaceDep_of_no_match env p dep R R hname
    (resolveWorkspaceRoot_of_abs env dep R habs)
  rw [membership_of_literal_root R p.Dir habs hroot hmeta]
  simp [hout]

/-- The sibling `/root-2` against root `/root`, with a git descriptor, is outside the
workspace. -/
theorem outside_workspace_of_literal_root_example :
    SatisfyWorskpaceDep exampleEnv (candidate "bar" "1.0.0" "/root-2")
      { Name := "bar", VersionRange := "github.com/x/bar", Key := "dependencies",
        Protocol := "git", FromName := "a", FromVersion := "1.0.0",
        FromFile := "/root/a/package.json" } "/root" = (false, some ErrOutsideWokspace) :=
  outside_workspace_of_literal_root exampleEnv (candidate "bar" "1.0.0" "/root-2")
    { Name := "bar", VersionRange := "github.com/x/bar", Key := "dependencies",
      Protocol := "git", FromName := "a", FromVersion := "1.0.0",
      FromFile := "/root/a/package.json" } "/root" (by decide) (by decide) (by decide)
    (by decide) (by decide)

/-! ## Claims on the workspace root and on the version check -/

/-- A verdict `true` can only come from the protocol dispatch: the names agree, the root
resolves and the membership check passes. -/
theorem SatisfyWorskpaceDep_true_inv (env : Env) (p : PackageJSON) (dep : PackageJsonDepInfo)
    (w : String) (h : (SatisfyWorskpaceDep env p dep w).1 = true) :
    p.Name = dep.Name ∧ (∃ root, resolveWorkspaceRoot env dep w = .ok root ∧
      membershipPasses root p.Dir) ∧
    SatisfyWorskpaceDep env p dep w = satisfyProtocol env p dep := by
  by_cases hname : p.Name = dep.Name
  · cases hroot : resolveWorkspaceRoot env dep w with
    | error err => simp [SatisfyWorskpaceDep, hname, hroot] at h
    | ok root =>
      cases hm : doublestar.Match (filepath.Join root "**") p.Dir with
      | mk ok err =>
        cases ok with
        | true =>
          have hmem : membershipPasses root p.Dir := by simp [membershipPasses, hm]
          exact ⟨hname, ⟨root, rfl, hmem⟩,
            SatisfyWorskpaceDep_of_member env p dep w root hname hroot hmem⟩
        | false =>
          cases err with
          | none => simp [SatisfyWorskpaceDep, hname, hroot, hm] at h
          | some e => simp [SatisfyWorskpaceDep, hname, hroot, hm] at h
  · simp [SatisfyWorskpaceDep, hname] at h

/-- The version check, reached for the empty protocol and for `npm` when the range is no
wildcard. -/
theorem satisfyProtocol_version_check (env : Env) (p : PackageJSON) (dep : PackageJsonDepInfo)
    (hproto : dep.Protocol = "" ∨ dep.Protocol = "npm")
    (hwild : ¬ (dep.VersionRange = "*" ∨ dep.VersionRange = "^" ∨ dep.VersionRange = "~")) :
    satisfyProtocol env p dep =
      match env.NewConstraint dep.VersionRange with
      | none =>
        (true, some (fmt.Errorf ErrParseVersion ("can't parse version: " ++ dep.VersionRange)))
      | some constraint =>
        match env.NewVersion p.Version with
        | none =>
          (true, some (fmt.Errorf ErrParseVersion ("can't parse version: " ++ p.Version)))
        | some version =>
          if env.Check constraint version then (true, none)
          else (false, some ErrParseVersion) := by
  have h1 : dep.Protocol ≠ "workspace" := by
    rcases hproto with h | h <;> rw [h] <;> decide
  have h2 : ¬ (dep.Protocol = "file" ∨ dep.Protocol = "link" ∨ dep.Protocol = "portal") := by
    rcases hproto with h | h <;> rw [h] <;> decide
  have h3 : ¬ (dep.Protocol ≠ "" ∧ dep.Protocol ≠ "npm") := by
    rcases hproto with h | h <;> simp [h]
  unfold satisfyProtocol
  rw [if_neg h1, if_neg h2, if_neg h3, if_neg hwild]

/-- C12: with matching names and protocol `workspace`, an empty workspace root gives
`(false, ErrMissingWorkspaceInfo)`, whatever `dep.FromFile`, `p.Dir` and `p.Version`
are. -/
theorem C12_workspace_protocol_needs_root (env : Env) (p : PackageJSON)
    (dep : PackageJsonDepInfo) (hname : p.Name = dep.Name)
    (hproto : dep.Protocol = "workspace") :
    SatisfyWorskpaceDep env p dep "" = (false, some ErrMissingWorkspaceInfo) := by
  simp [SatisfyWorskpaceDep, hname, resolveWorkspaceRoot, hproto]

/-- Witness for C12: a `workspace:*` descriptor declared in `/ws/a/package.json`, the
candidate in `/ws/a/bar`, no workspace root. -/
theorem C12_workspace_protocol_needs_root_witness :
    SatisfyWorskpaceDep exampleEnv (candidate "bar" "1.0.0" "/ws/a/bar")
      { Name := "bar", VersionRange := "*", Key := "dependencies", Protocol := "workspace",
        FromName := "a", FromVersion := "1.0.0", FromFile := "/ws/a/package.json" } "" =
      (false, some ErrMissingWorkspaceInfo) :=
  C12_workspace_protocol_needs_root exampleEnv (candidate "bar" "1.0.0" "/ws/a/bar")
    { Name := "bar", VersionRange := "*", Key := "dependencies", Protocol := "workspace",
      FromName := "a", FromVersion := "1.0.0", FromFile := "/ws/a/package.json" }
    (by decide) (by decide)

/-- C14: with matching names, protocol empty or `npm`, a version range `*`, `^` or `~`
and a passing membership check, the result is `(true, nil)` for every candidate version,
parseable or not. -/
theorem C14_wildcard_range_accepts (env : Env) (p : PackageJSON) (dep : PackageJsonDepInfo)
    (w root : String) (hname : p.Name = dep.Name)
    (hproto : dep.Protocol = "" ∨ dep.Protocol = "npm")
    (hwild : dep.VersionRange = "*" ∨ dep.VersionRange = "^" ∨ dep.VersionRange = "~")
    (hroot : resolveWorkspaceRoot env dep w = .ok root)
    (hmem : membershipPasses root p.Dir) (version : String) :
    SatisfyWorskpaceDep env { p with Version := version } dep w = (true, none) := by
  have h1 : dep.Protocol ≠ "workspace" := by
    rcases hproto with h | h <;> rw [h] <;> decide
  have h2 : ¬ (dep.Protocol = "file" ∨ dep.Protocol = "link" ∨ dep.Protocol = "portal") := by
    rcases hproto with h | h <;> rw [h] <;> decide
  have h3 : ¬ (dep.Protocol ≠ "" ∧ dep.Protocol ≠ "npm") := by
    rcases hproto with h | h <;> simp [h]
  rw [SatisfyWorskpaceDep_of_member env { p with Version := version } dep w root hname hroot
    hmem]
  unfold satisfyProtocol
  rw [if_neg h1, if_neg h2, if_neg h3, if_pos hwild]

/-- Witness for C14: range `~` under protocol `npm`, candidate version `not-a-version`,
in an environment whose version parser would reject it. -/
theorem C14_wildcard_range_accepts_witness :
    SatisfyWorskpaceDep semverEnv
      { candidate "bar" "1.0.0" "/ws/bar" with Version := "not-a-version" }
      { Name := "bar", VersionRange := "~", Key := "dependencies", Protocol := "npm",
        FromName := "a", FromVersion := "1.0.0", FromFile := "/ws/a/package.json" } "/ws" =
      (true, none) :=
  C14_wildcard_range_accepts semverEnv (candidate "bar" "1.0.0" "/ws/bar")
    { Name := "bar", VersionRange := "~", Key := "dependencies", Protocol := "npm",
      FromName := "a", FromVersion := "1.0.0", FromFile := "/ws/a/package.json" }
    "/ws" "/ws" (by decide) (by decide) (by decide) (by decide) (by decide) "not-a-version"

/-- C15: with matching names, protocol empty or `npm`, a passing membership check and a
range that is no wildcard, when the range fails to parse as a constraint or the candidate
version fails to parse as a version, the verdict is `true` together with a non-nil error
wrapping `ErrParseVersion`. -/
theorem C15_soft_fail_on_parse_error (env : Env) (p : PackageJSON)
    (dep : PackageJsonDepInfo) (w root : String) (hname : p.Name = dep.Name)
    (hproto : dep.Protocol = "" ∨ dep.Protocol = "npm")
    (hwild : ¬ (dep.VersionRange = "*" ∨ dep.VersionRange = "^" ∨ dep.VersionRange = "~"))
    (hroot : resolveWorkspaceRoot env dep w = .ok root)
    (hmem : membershipPasses root p.Dir)
    (hparse : env.NewConstraint dep.VersionRange = none ∨ env.NewVersion p.Version = none) :
    (SatisfyWorskpaceDep env p dep w).1 = true ∧
    ∃ err, (SatisfyWorskpaceDep env p dep w).2 = some err ∧
      errors.Is err ErrParseVersion = true := by
  rw [SatisfyWorskpaceDep_of_member env p dep w root hname hroot hmem,
    satisfyProtocol_version_check env p dep hproto hwild]
  cases hc : env.NewConstraint dep.VersionRange with
  | none => exact ⟨rfl, _, rfl, errors.Is_Errorf _ _⟩
  | some c =>
    have hv : env.NewVersion p.Version = none := by
      rcases hparse with h | h
      · rw [hc] at h; exact absurd h (by simp)
      · exact h
    cases hv2 : env.NewVersion p.Version with
    | none => exact ⟨rfl, _, rfl, errors.Is_Errorf _ _⟩
    | some v => rw [hv] at hv2; exact absurd hv2 (by simp)

/-- Witness for C15: the range `^1.2.3` parses and the candidate version `latest` does
not. -/
theorem C15_soft_fail_on_parse_error_witness :
    (SatisfyWorskpaceDep semverEnv (candidate "foo" "latest" "/ws/foo")
      { Name := "foo", VersionRange := "^1.2.3", Key := "dependencies", Protocol := "",
        FromName := "a", FromVersion := "1.0.0", FromFile := "/ws/a/package.json" }
      "/ws").1 = true ∧
    ∃ err, (SatisfyWorskpaceDep semverEnv (candidate "foo" "latest" "/ws/foo")
      { Name := "foo", VersionRange := "^1.2.3", Key := "dependencies", Protocol := "",
        FromName := "a", FromVersion := "1.0.0", FromFile := "/ws/a/package.json" }
      "/ws").2 = some err ∧ errors.Is err ErrParseVersion = true :=
  C15_soft_fail_on_parse_error semverEnv (candidate "foo" "latest" "/ws/foo")
    { Name := "foo", VersionRange := "^1.2.3", Key := "dependencies", Protocol := "",
      FromName := "a", FromVersion := "1.0.0", FromFile := "/ws/a/package.json" }
    "/ws" "/ws" (by decide) (by decide) (by decide) (by decide) (by decide)
    (Or.inr rfl)

/-- C16: with matching names, protocol empty or `npm`, a passing membership check, a
range that is no wildcard and parses to constraint `c`, and a candidate version that
parses to `v`, the verdict equals `c.Check(v)`: the result is `(true, nil)` when the
constraint matches and `(false, ErrParseVersion)` when it does not. -/
theorem C16_verdict_is_constraint_check (env : Env) (p : PackageJSON)
    (dep : PackageJsonDepInfo) (w root : String) (c : env.Constraint) (v : env.Version)
    (hname : p.Name = dep.Name)
    (hproto : dep.Protocol = "" ∨ dep.Protocol = "npm")
    (hwild : ¬ (dep.VersionRange = "*" ∨ dep.VersionRange = "^" ∨ dep.VersionRange = "~"))
    (hroot : resolveWorkspaceRoot env dep w = .ok root)
    (hmem : membershipPasses root p.Dir)
    (hc : env.NewConstraint dep.VersionRange = some c)
    (hv : env.NewVersion p.Version = some v) :
    (SatisfyWorskpaceDep env p dep w).1 = env.Check c v ∧
    (env.Check c v = true → SatisfyWorskpaceDep env p dep w = (true, none)) ∧
    (env.Check c v = false →
      SatisfyWorskpaceDep env p dep w = (false, some ErrParseVersion)) := by
  rw [SatisfyWorskpaceDep_of_member env p dep w root hname hroot hmem,
    satisfyProtocol_version_check env p dep hproto hwild]
  simp only [hc, hv]
  cases hk : env.Check c v <;> simp

/-- Witness for C16: range `^1.2.3` against candidate version `1.2.3` is accepted, and
range `<=4.5.6` against candidate version `4.5.7` is rejected with `ErrParseVersion`,
both inside the workspace. -/
theorem C16_verdict_is_constraint_check_witness :
    SatisfyWorskpaceDep semverEnv (candidate "foo" "1.2.3" "/ws/foo")
      { Name := "foo", VersionRange := "^1.2.3", Key := "dependencies", Protocol := "",
        FromName := "a", FromVersion := "1.0.0", FromFile := "/ws/a/package.json" }
      "/ws" = (true, none) ∧
    SatisfyWorskpaceDep semverEnv (candidate "devFoo" "4.5.7" "/ws/devFoo")
      { Name := "devFoo", VersionRange := "<=4.5.6", Key := "devDependencies", Protocol := "",
        FromName := "a", FromVersion := "1.0.0", FromFile := "/ws/a/package.json" }
      "/ws" = (false, some ErrParseVersion) :=
  ⟨(C16_verdict_is_constraint_check semverEnv (candidate "foo" "1.2.3" "/ws/foo")
      { Name := "foo", VersionRange := "^1.2.3", Key := "dependencies", Protocol := "",
        FromName := "a", FromVersion := "1.0.0", FromFile := "/ws/a/package.json" }
      "/ws" "/ws" (.caret (1, 2, 3)) (1, 2, 3) (by decide) (by decide) (by decide)
      (by decide) (by decide) rfl rfl).2.1 rfl,
   (C16_verdict_is_constraint_check semverEnv (candidate "devFoo" "4.5.7" "/ws/devFoo")
      { Name := "devFoo", VersionRange := "<=4.5.6", Key := "devDependencies", Protocol := "",
        FromName := "a", FromVersion := "1.0.0", FromFile := "/ws/a/package.json" }
      "/ws" "/ws" (.lessEq (4, 5, 6)) (4, 5, 7) (by decide) (by decide) (by decide)
      (by decide) (by decide) rfl rfl).2.2 rfl⟩

theorem satisfyProtocol_true_with_error (env : Env) (p : PackageJSON)
    (dep : PackageJsonDepInfo) (err : GoError)
    (h : satisfyProtocol env p dep = (true, some err)) :
    (dep.Protocol = "" ∨ dep.Protocol = "npm") ∧ errors.Is err ErrParseVersion = true ∧
    (env.NewConstraint dep.VersionRange = none ∨ env.NewVersion p.Version = none) := by
  unfold satisfyProtocol at h
  by_cases h1 : dep.Protocol = "workspace"
  · simp [h1] at h
  · by_cases h2 : dep.Protocol = "file" ∨ dep.Protocol = "link" ∨ dep.Protocol = "portal"
    · by_cases h3 : filepath.Join (filepath.Dir dep.FromFile) dep.VersionRange = p.Dir
      · simp [h1, h2, h3] at h
      · simp [h1, h2, h3] at h
    · by_cases h4 : dep.Protocol ≠ "" ∧ dep.Protocol ≠ "npm"
      · simp [h1, h2, h4] at h
      · have hproto : dep.Protocol = "" ∨ dep.Protocol = "npm" := by
          by_cases e : dep.Protocol = ""
          · exact Or.inl e
          · by_cases e2 : dep.Protocol = "npm"
            · exact Or.inr e2
            · exact absurd ⟨e, e2⟩ h4
        by_cases h5 : dep.VersionRange = "*" ∨ dep.VersionRange = "^" ∨ dep.VersionRange = "~"
        · simp [h1, h2, h4, h5] at h
        · rw [if_neg h1, if_neg h2, if_neg h4, if_neg h5] at h
          cases hc : env.NewConstraint dep.VersionRange with
          | none =>
            rw [hc] at h
            simp only [Prod.mk.injEq, Option.some.injEq, true_and] at h
            exact ⟨hproto, h ▸ errors.Is_Errorf _ _, Or.inl rfl⟩
          | some c =>
            cases hv : env.NewVersion p.Version with
            | none =>
              rw [hc, hv] at h
              simp only [Prod.mk.injEq, Option.some.injEq, true_and] at h
              exact ⟨hproto, h ▸ errors.Is_Errorf _ _, Or.inr rfl⟩
            | some v =>
              rw [hc, hv] at h
              by_cases hk : env.Check c v = true
              · simp [hk] at h
              · simp [hk] at h

/-- C17: a verdict `true` comes with a non-nil error only in the two soft-fail cases.
Whenever the result is `(true, err)` with `err` non-nil, the protocol is empty or `npm`,
`err` wraps `ErrParseVersion`, and the range failed to parse as a constraint or the
candidate version failed to parse as a version. -/
theorem C17_true_with_error_is_soft_fail (env : Env) (p : PackageJSON)
    (dep : PackageJsonDepInfo) (w : String) (err : GoError)
    (h : SatisfyWorskpaceDep env p dep w = (true, some err)) :
    (dep.Protocol = "" ∨ dep.Protocol = "npm") ∧ errors.Is err ErrParseVersion = true ∧
    (env.NewConstraint dep.VersionRange = none ∨ env.NewVersion p.Version = none) := by
  have hinv := SatisfyWorskpaceDep_true_inv env p dep w (by rw [h])
  rw [hinv.2.2] at h
  exact satisfyProtocol_true_with_error env p dep err h

/-- Witness for C17: range `1.x || 2.x`, which the example parser rejects, gives verdict
`true` with an error. -/
theorem C17_true_with_error_is_soft_fail_witness :
    (("" : String) = "" ∨ ("" : String) = "npm") ∧
    errors.Is (fmt.Errorf ErrParseVersion "can't parse version: 1.x || 2.x")
      ErrParseVersion = true ∧
    (semverEnv.NewConstraint "1.x || 2.x" = none ∨ semverEnv.NewVersion "1.2.3" = none) :=
  C17_true_with_error_is_soft_fail semverEnv (candidate "foo" "1.2.3" "/ws/foo")
    { Name := "foo", VersionRange := "1.x || 2.x", Key := "dependencies", Protocol := "",
      FromName := "a", FromVersion := "1.0.0", FromFile := "/ws/a/package.json" }
    "/ws" (fmt.Errorf ErrParseVersion "can't parse version: 1.x || 2.x") (by decide)

/-- C19: the protocol `npm` is evaluated exactly like the empty protocol. Two descriptors
that differ only in `Protocol`, empty in one and `npm` in the other, get the same verdict
and the same error for every candidate and workspace root. -/
theorem C19_npm_like_empty_protocol (env : Env) (p : PackageJSON) (dep : PackageJsonDepInfo)
    (w : String) :
    SatisfyWorskpaceDep env p { dep with Protocol := "" } w =
      SatisfyWorskpaceDep env p { dep with Protocol := "npm" } w := by
  have hr : resolveWorkspaceRoot env { dep with Protocol := "" } w =
      resolveWorkspaceRoot env { dep with Protocol := "npm" } w := by
    unfold resolveWorkspaceRoot
    have e1 : ¬ (("" : String) = "workspace") := by decide
    have e2 : ¬ (("npm" : String) = "workspace") := by decide
    simp only [e1, e2, if_false]
  have hp : satisfyProtocol env p { dep with Protocol := "" } =
      satisfyProtocol env p { dep with Protocol := "npm" } := by
    unfold satisfyProtocol
    have e1 : ¬ (("" : String) = "workspace") := by decide
    have e2 : ¬ (("npm" : String) = "workspace") := by decide
    have e3 : ¬ (("" : String) = "file" ∨ ("" : String) = "link" ∨ ("" : String) = "portal") := by
      decide
    have e4 : ¬ (("npm" : String) = "file" ∨ ("npm" : String) = "link" ∨
        ("npm" : String) = "portal") := by decide
    have e5 : ¬ (("" : String) ≠ "" ∧ ("" : String) ≠ "npm") := by decide
    have e6 : ¬ (("npm" : String) ≠ "" ∧ ("npm" : String) ≠ "npm") := by decide
    simp only [e1, e2, e3, e4, e5, e6, if_false]
  unfold SatisfyWorskpaceDep
  simp only [hr, hp]

/-- C18, counterexample: with root `/ws[` the glob match fails with `ErrBadPattern`, and
the error returned is not `ErrBadPattern` itself but a new error that wraps it and has a
longer message. -/
theorem C18_glob_error_counterexample :
    doublestar.Match (filepath.Join "/ws[" "**") "/ws[/pkg" =
      (false, some doublestar.ErrBadPattern) ∧
    SatisfyWorskpaceDep exampleEnv (candidate "bar" "1.0.0" "/ws[/pkg")
      { Name := "bar", VersionRange := "*", Key := "dependencies", Protocol := "workspace",
        FromName := "a", FromVersion := "1.0.0", FromFile := "/ws[/a/package.json" } "/ws[" =
      (false, some (GoError.wrap
        "syntax error in pattern: can't check dependency is inside workspace"
        doublestar.ErrBadPattern)) ∧
    GoError.wrap "syntax error in pattern: can't check dependency is inside workspace"
      doublestar.ErrBadPattern ≠ doublestar.ErrBadPattern := by
  decide

/-- C18, amended: with matching names, when resolving a relative workspace root to an
absolute path fails with error `e`, the result is `false` with `e` itself, unchanged;
when the glob match of the membership check fails with error `e`, the result is `false`
with an error that wraps `e` and whose message is the message of `e` followed by
`: can't check dependency is inside workspace`. -/
theorem C18_resolution_and_glob_errors (env : Env) (p : PackageJSON)
    (dep : PackageJsonDepInfo) (w : String) (hname : p.Name = dep.Name) :
    (∀ e, w ≠ "" → filepath.IsAbs w = false → filepath.Abs env.Getwd w = .error e →
      SatisfyWorskpaceDep env p dep w = (false, some e)) ∧
    (∀ root e, resolveWorkspaceRoot env dep w = .ok root →
      doublestar.Match (filepath.Join root "**") p.Dir = (false, some e) →
      SatisfyWorskpaceDep env p dep w =
        (false, some (fmt.Errorf e ": can't check dependency is inside workspace")) ∧
      errors.Is (fmt.Errorf e ": can't check dependency is inside workspace") e = true ∧
      (fmt.Errorf e ": can't check dependency is inside workspace").Error =
        e.Error ++ ": can't check dependency is inside workspace") := by
  constructor
  · intro e hw hrel habs
    have hroot : resolveWorkspaceRoot env dep w = .error e := by
      simp [resolveWorkspaceRoot, hw, hrel, habs]
    simp [SatisfyWorskpaceDep, hname, hroot]
  · intro root e hroot hmatch
    refine ⟨?_, errors.Is_Errorf _ _, rfl⟩
    simp [SatisfyWorskpaceDep, hname, hroot, hmatch]

/-- Witness for C18 (amended): a relative root `ws` when the working directory cannot be
read, and the root `/ws[` whose glob pattern is malformed. -/
theorem C18_resolution_and_glob_errors_witness :
    SatisfyWorskpaceDep noGetwdEnv (candidate "bar" "1.0.0" "/home/user/ws/bar")
      { Name := "bar", VersionRange := "*", Key := "dependencies", Protocol := "workspace",
        FromName := "a", FromVersion := "1.0.0", FromFile := "/home/user/ws/a/package.json" }
      "ws" = (false, some (GoError.new "getwd: no such file or directory")) ∧
    SatisfyWorskpaceDep exampleEnv (candidate "bar" "1.0.0" "/ws[/pkg")
      { Name := "bar", VersionRange := "*", Key := "dependencies", Protocol := "workspace",
        FromName := "a", FromVersion := "1.0.0", FromFile := "/ws[/a/package.json" } "/ws[" =
      (false, some (fmt.Errorf doublestar.ErrBadPattern
        ": can't check dependency is inside workspace")) :=
  ⟨(C18_resolution_and_glob_errors noGetwdEnv (candidate "bar" "1.0.0" "/home/user/ws/bar")
      { Name := "bar", VersionRange := "*", Key := "dependencies", Protocol := "workspace",
        FromName := "a", FromVersion := "1.0.0", FromFile := "/home/user/ws/a/package.json" }
      "ws" (by decide)).1 (GoError.new "getwd: no such file or directory")
      (by decide) (by decide) (by decide),
   ((C18_resolution_and_glob_errors exampleEnv (candidate "bar" "1.0.0" "/ws[/pkg")
      { Name := "bar", VersionRange := "*", Key := "dependencies", Protocol := "workspace",
        FromName := "a", FromVersion := "1.0.0", FromFile := "/ws[/a/package.json" }
      "/ws[" (by decide)).2 "/ws[" doublestar.ErrBadPattern (by decide) (by decide)).1⟩

/-! ## Lemmas on absolute paths -/

theorem filepath.data_of_abs (R : String) (habs : IsAbs R = true) :
    ∃ rest, R.data = '/' :: rest := by
  have hR : R.data.head? = some '/' := by simpa [IsAbs] using habs
  cases hd : R.data with
  | nil => rw [hd] at hR; simp at hR
  | cons a rest =>
    rw [hd] at hR
    simp at hR
    exact ⟨rest, by rw [hR]⟩

/-- Cleaning an absolute path: the outcome of the loop, which starts with a separator. -/
theorem filepath.Clean_of_abs (R : String) (rest : List Char) (hrest : R.data = '/' :: rest) :
    (Clean R).data = cleanLoop true false rest ['/'] 1 ∧
    (cleanLoop true false rest ['/'] 1).head? = some '/' := by
  have hhead := cleanLoop_rooted_head rest.length rest (Nat.le_refl _) false ['/'] rfl
  have hlen : (cleanLoop true false rest ['/'] 1).length ≠ 0 := by
    intro e
    rw [List.length_eq_zero.1 e] at hhead
    simp at hhead
  exact ⟨by simp [Clean, cleanChars, hrest, hlen], hhead⟩

theorem filepath.IsAbs_Clean (R : String) (habs : IsAbs R = true) : IsAbs (Clean R) = true := by
  obtain ⟨rest, hrest⟩ := data_of_abs R habs
  obtain ⟨h1, h2⟩ := Clean_of_abs R rest hrest
  simp [IsAbs, h1, h2]

theorem filepath.dropWhile_append_singleton (q : Char → Bool) (a : Char) (hq : q a = false) :
    ∀ l : List Char, ∃ pre, (l ++ [a]).dropWhile q = pre ++ [a] := by
  intro l
  induction l with
  | nil => exact ⟨[], by simp [List.dropWhile, hq]⟩
  | cons x l ih =>
    by_cases hx : q x = true
    · obtain ⟨pre, hpre⟩ := ih
      exact ⟨pre, by simp [List.dropWhile, hx, hpre]⟩
    · exact ⟨x :: l, by simp [List.dropWhile, hx]⟩

theorem filepath.dirChars_of_abs (rest : List Char) :
    ∃ t, dirChars ('/' :: rest) = '/' :: t := by
  unfold dirChars
  obtain ⟨pre, hpre⟩ := dropWhile_append_singleton (fun c => c != '/') '/' (by decide)
    rest.reverse
  refine ⟨pre.reverse, ?_⟩
  rw [List.reverse_cons, hpre]
  simp

/-- The directory of an absolute file path is absolute. -/
theorem filepath.IsAbs_Dir (file : String) (habs : IsAbs file = true) :
    IsAbs (Dir file) = true := by
  obtain ⟨rest, hrest⟩ := data_of_abs file habs
  obtain ⟨t, ht⟩ := dirChars_of_abs rest
  apply IsAbs_Clean
  simp [IsAbs, hrest, ht]

/-- Joining `**` to an absolute root whose cleaned form is `/`: the pattern `/**`. -/
theorem filepath.Join_stars_of_root (R : String) (habs : IsAbs R = true)
    (hroot : Clean R = "/") : (Join R "**").data = ['/', '*', '*'] := by
  obtain ⟨rest, hrest⟩ := data_of_abs R habs
  obtain ⟨hclean, -⟩ := Clean_of_abs R rest hrest
  have hne : R ≠ "" := by
    intro e
    rw [e] at hrest
    simp at hrest
  have hout : cleanLoop true false rest ['/'] 1 = ['/'] := by
    rw [← hclean, hroot]
  have happ := cleanLoop_append_sep true ['*', '*']
    (fun out => (if out.length ≠ 1 then out ++ ['/'] else out) ++ ['*', '*'])
    (fun m out dd => cleanLoop_stars m out dd) rest.length rest (Nat.le_refl _) false ['/'] 1
  rw [hout] at happ
  have hdata : (R ++ "/" ++ "**").data = '/' :: (rest ++ '/' :: ['*', '*']) := by
    simp [String.data_append, hrest]
  unfold Join
  rw [if_pos hne]
  simp [Clean, cleanChars, hdata, happ]

/-- The result of `SatisfyWorskpaceDep` depends on the workspace root only through the
resolved root. -/
theorem SatisfyWorskpaceDep_congr_root (env : Env) (p : PackageJSON)
    (dep : PackageJsonDepInfo) (w1 w2 : String)
    (h : resolveWorkspaceRoot env dep w1 = resolveWorkspaceRoot env dep w2) :
    SatisfyWorskpaceDep env p dep w1 = SatisfyWorskpaceDep env p dep w2 := by
  unfold SatisfyWorskpaceDep
  rw [h]

theorem satisfyProtocol_ne_outside (env : Env) (p : PackageJSON) (dep : PackageJsonDepInfo) :
    (satisfyProtocol env p dep).2 ≠ some ErrOutsideWokspace := by
  have e1 : ∀ s, fmt.Errorf ErrMismatchPath s ≠ ErrOutsideWokspace := by
    intro s
    simp [fmt.Errorf, ErrOutsideWokspace, ErrMismatchPath, ErrSatisfaction]
  have e2 : ∀ s, fmt.Errorf ErrParseVersion s ≠ ErrOutsideWokspace := by
    intro s
    simp [fmt.Errorf, ErrOutsideWokspace, ErrParseVersion, ErrSatisfaction]
  have e3 : ErrRemoteProtocol ≠ ErrOutsideWokspace := by decide
  have e4 : ErrParseVersion ≠ ErrOutsideWokspace := by decide
  unfold satisfyProtocol
  by_cases h1 : dep.Protocol = "workspace"
  · simp [h1]
  · by_cases h2 : dep.Protocol = "file" ∨ dep.Protocol = "link" ∨ dep.Protocol = "portal"
    · by_cases h3 : filepath.Join (filepath.Dir dep.FromFile) dep.VersionRange = p.Dir
      · simp [h1, h2, h3]
      · simp [h1, h2, h3, e1]
    · by_cases h4 : dep.Protocol ≠ "" ∧ dep.Protocol ≠ "npm"
      · simp [h1, h2, h4, e3]
      · by_cases h5 : dep.VersionRange = "*" ∨ dep.VersionRange = "^" ∨ dep.VersionRange = "~"
        · simp [h1, h2, h4, h5]
        · rw [if_neg h1, if_neg h2, if_neg h4, if_neg h5]
          cases hc : env.NewConstraint dep.VersionRange with
          | none => simp [e2]
          | some c =>
            cases hv : env.NewVersion p.Version with
            | none => simp [e2]
            | some v =>
              by_cases hk : env.Check c v = true
              · simp [hk]
              · simp [hk, e4]

/-! ## Claims on the membership check and on the default workspace root -/

/-- The membership check for an absolute root whose cleaned form holds no glob
metacharacter passes, without error, for every directory strictly under the cleaned
root. -/
theorem membership_passes_under_literal_root (R dir : String)
    (habs : filepath.IsAbs R = true)
    (hmeta : ∀ c ∈ (filepath.Clean R).data, doublestar.isMeta c = false)
    (hunder : isStrictlyUnder (filepath.Clean R) dir) :
    doublestar.Match (filepath.Join R "**") dir = (true, none) := by
  unfold isStrictlyUnder at hunder
  by_cases hroot : filepath.Clean R = "/"
  · rw [if_pos hroot] at hunder
    rw [doublestar.Match_literal _ dir [] (by simpa using filepath.Join_stars_of_root R habs hroot)
      (by simp)]
    simp [hunder]
  · rw [if_neg hroot] at hunder
    rw [membership_of_literal_root R dir habs hroot hmeta]
    have : isNestedUnder (filepath.Clean R) dir := Or.inr hunder
    simp [this]

/-- C11, at the failing inputs: the candidate directory `/ws[1]/pkg` is the absolute root
`/ws[1]` followed by a nested segment, so the claim asks for a passing membership check;
the code puts the root unescaped into the glob pattern, its brackets are read as a
character class and the result is `ErrOutsideWokspace`. For the root `/ws[` and the
directory `/ws[/pkg` the glob match itself fails and its error is returned. -/
theorem C11_bracket_root_rejects_nested_directory :
    filepath.IsAbs "/ws[1]" = true ∧ isStrictlyUnder "/ws[1]" "/ws[1]/pkg" ∧
    SatisfyWorskpaceDep exampleEnv (candidate "bar" "1.0.0" "/ws[1]/pkg")
      { Name := "bar", VersionRange := "*", Key := "dependencies", Protocol := "workspace",
        FromName := "a", FromVersion := "1.0.0", FromFile := "/ws[1]/a/package.json" }
      "/ws[1]" = (false, some ErrOutsideWokspace) ∧
    filepath.IsAbs "/ws[" = true ∧ isStrictlyUnder "/ws[" "/ws[/pkg" ∧
    SatisfyWorskpaceDep exampleEnv (candidate "bar" "1.0.0" "/ws[/pkg")
      { Name := "bar", VersionRange := "*", Key := "dependencies", Protocol := "workspace",
        FromName := "a", FromVersion := "1.0.0", FromFile := "/ws[/a/package.json" }
      "/ws[" = (false, some (fmt.Errorf doublestar.ErrBadPattern
        ": can't check dependency is inside workspace")) := by
  decide

/-- Where the root holds no glob metacharacter the containment check accepts as the
documentation says. With matching names, for every absolute workspace root `R` whose
cleaned form `filepath.Clean(R)` holds none of `*`, `?`, `[`, `{`, `}`, `\`, and every
candidate whose directory is the cleaned root followed by a separator and nested path
segments, the membership check passes: the glob match returns `true` without error, the
result is that of the protocol dispatch and its error is never `ErrOutsideWokspace`. -/
theorem membership_passes_of_literal_root (env : Env) (p : PackageJSON)
    (dep : PackageJsonDepInfo) (R : String) (hname : p.Name = dep.Name)
    (habs : filepath.IsAbs R = true)
    (hmeta : ∀ c ∈ (filepath.Clean R).data, doublestar.isMeta c = false)
    (hunder : isStrictlyUnder (filepath.Clean R) p.Dir) :
    doublestar.Match (filepath.Join R "**") p.Dir = (true, none) ∧
    SatisfyWorskpaceDep env p dep R = satisfyProtocol env p dep ∧
    (SatisfyWorskpaceDep env p dep R).2 ≠ some ErrOutsideWokspace := by
  have hm := membership_passes_under_literal_root R p.Dir habs hmeta hunder
  have hs := SatisfyWorskpaceDep_of_member env p dep R R hname
    (resolveWorkspaceRoot_of_abs env dep R habs) (by simp [membershipPasses, hm])
  exact ⟨hm, hs, by rw [hs]; exact satisfyProtocol_ne_outside env p dep⟩

/-- Root `/my ws/a-b.c`, whose name holds a blank, a dash and a dot, written with a
trailing separator; the candidate two levels below it passes the membership check. -/
theorem membership_passes_of_literal_root_example :
    doublestar.Match (filepath.Join "/my ws/a-b.c/" "**") "/my ws/a-b.c/packages/bar" =
      (true, none) ∧
    SatisfyWorskpaceDep exampleEnv (candidate "bar" "1.0.0" "/my ws/a-b.c/packages/bar")
      { Name := "bar", VersionRange := "*", Key := "dependencies", Protocol := "workspace",
        FromName := "a", FromVersion := "1.0.0", FromFile := "/my ws/a-b.c/package.json" }
      "/my ws/a-b.c/" =
      satisfyProtocol exampleEnv (candidate "bar" "1.0.0" "/my ws/a-b.c/packages/bar")
        { Name := "bar", VersionRange := "*", Key := "dependencies", Protocol := "workspace",
          FromName := "a", FromVersion := "1.0.0", FromFile := "/my ws/a-b.c/package.json" } ∧
    (SatisfyWorskpaceDep exampleEnv (candidate "bar" "1.0.0" "/my ws/a-b.c/packages/bar")
      { Name := "bar", VersionRange := "*", Key := "dependencies", Protocol := "workspace",
        FromName := "a", FromVersion := "1.0.0", FromFile := "/my ws/a-b.c/package.json" }
      "/my ws/a-b.c/").2 ≠ some ErrOutsideWokspace :=
  membership_passes_of_literal_root exampleEnv
    (candidate "bar" "1.0.0" "/my ws/a-b.c/packages/bar")
    { Name := "bar", VersionRange := "*", Key := "dependencies", Protocol := "workspace",
      FromName := "a", FromVersion := "1.0.0", FromFile := "/my ws/a-b.c/package.json" }
    "/my ws/a-b.c/" (by decide) (by decide) (by decide) (by decide)

/-- C13, counterexample: for the relative manifest path `pkg/package.json` the default
root is the relative directory `pkg`, under which the candidate directory `pkg/sub`
lies, while the same directory passed as root is first made absolute and the candidate is
then outside of it. -/
theorem C13_default_root_counterexample :
    filepath.Dir "pkg/package.json" = "pkg" ∧
    SatisfyWorskpaceDep exampleEnv (candidate "bar" "1.0.0" "pkg/sub")
      { Name := "bar", VersionRange := "*", Key := "dependencies", Protocol := "",
        FromName := "a", FromVersion := "1.0.0", FromFile := "pkg/package.json" } "" =
      (true, none) ∧
    SatisfyWorskpaceDep exampleEnv (candidate "bar" "1.0.0" "pkg/sub")
      { Name := "bar", VersionRange := "*", Key := "dependencies", Protocol := "",
        FromName := "a", FromVersion := "1.0.0", FromFile := "pkg/package.json" }
      (filepath.Dir "pkg/package.json") = (false, some ErrOutsideWokspace) := by
  decide

/-- C13, amended: for every candidate and every descriptor whose protocol is not
`workspace` and whose `FromFile` is an absolute path, leaving the workspace root
unspecified gives the same verdict and error as passing
`filepath.Dir(dep.FromFile)`. -/
theorem C13_default_root_of_absolute_file (env : Env) (p : PackageJSON)
    (dep : PackageJsonDepInfo) (hproto : dep.Protocol ≠ "workspace")
    (habs : filepath.IsAbs dep.FromFile = true) :
    SatisfyWorskpaceDep env p dep "" =
      SatisfyWorskpaceDep env p dep (filepath.Dir dep.FromFile) := by
  apply SatisfyWorskpaceDep_congr_root
  rw [resolveWorkspaceRoot_of_abs env dep _ (filepath.IsAbs_Dir _ habs)]
  simp [resolveWorkspaceRoot, hproto]

/-- Witness for C13 (amended): a `file:` descriptor declared in `/ws/a/package.json`. -/
theorem C13_default_root_of_absolute_file_witness :
    SatisfyWorskpaceDep exampleEnv (candidate "bar" "1.0.0" "/ws/a/bar")
      { Name := "bar", VersionRange := "./bar", Key := "dependencies", Protocol := "file",
        FromName := "a", FromVersion := "1.0.0", FromFile := "/ws/a/package.json" } "" =
    SatisfyWorskpaceDep exampleEnv (candidate "bar" "1.0.0" "/ws/a/bar")
      { Name := "bar", VersionRange := "./bar", Key := "dependencies", Protocol := "file",
        FromName := "a", FromVersion := "1.0.0", FromFile := "/ws/a/package.json" }
      (filepath.Dir "/ws/a/package.json") :=
  C13_default_root_of_absolute_file exampleEnv (candidate "bar" "1.0.0" "/ws/a/bar")
    { Name := "bar", VersionRange := "./bar", Key := "dependencies", Protocol := "file",
      FromName := "a", FromVersion := "1.0.0", FromFile := "/ws/a/package.json" }
    (by decide) (by decide)

/-! ## The default root as a glob pattern -/

theorem filepath.cleanLoop_stars_rel (m : Bool) (out : List Char) (dd : Nat) :
    cleanLoop false m ('/' :: ['*', '*']) out dd =
      (if out.length ≠ 0 then out ++ ['/'] else out) ++ ['*', '*'] := by
  cases m <;> simp [cleanLoop]

/-- Joining `**` to a relative, non-empty root whose cleaned form is not `.`: the
cleaned root followed by `/**`. -/
theorem filepath.Join_stars_of_rel (R : String) (hne : R ≠ "") (hrel : IsAbs R = false)
    (hdot : Clean R ≠ ".") :
    (Join R "**").data = (Clean R).data ++ ['/', '*', '*'] := by
  obtain ⟨c, rest, hrest⟩ : ∃ c rest, R.data = c :: rest := by
    cases hd : R.data with
    | nil => exact absurd (String.ext (by rw [hd])) hne
    | cons c rest => exact ⟨c, rest, rfl⟩
  have hc : c ≠ '/' := by
    intro e
    rw [IsAbs, hrest, e] at hrel
    simp at hrel
  have hlen : (cleanLoop false false (c :: rest) [] 0).length ≠ 0 := by
    intro e
    apply hdot
    apply String.ext
    simp [Clean, cleanChars, hrest, hc, e]
  have hclean : (Clean R).data = cleanLoop false false (c :: rest) [] 0 := by
    simp [Clean, cleanChars, hrest, hc, hlen]
  have happ := cleanLoop_append_sep false ['*', '*']
    (fun out => (if out.length ≠ 0 then out ++ ['/'] else out) ++ ['*', '*'])
    (fun m out dd => cleanLoop_stars_rel m out dd) (c :: rest).length (c :: rest)
    (Nat.le_refl _) false [] 0
  simp only [if_pos hlen] at happ
  have hdata : (R ++ "/" ++ "**").data = c :: (rest ++ '/' :: ['*', '*']) := by
    simp [String.data_append, hrest]
  have hjoin : (Clean (R ++ "/" ++ "**")).data =
      cleanLoop false false (c :: rest) [] 0 ++ ['/'] ++ ['*', '*'] := by
    have happ2 : cleanLoop false false (c :: (rest ++ '/' :: ['*', '*'])) [] 0 =
        cleanLoop false false (c :: rest) [] 0 ++ ['/'] ++ ['*', '*'] := happ
    simp [Clean, cleanChars, hdata, hc, happ2]
  unfold Join
  rw [if_pos hne, hjoin, hclean]
  simp

/-- The membership check for a non-empty root, absolute or relative, whose cleaned form
is not `.` and holds no glob metacharacter: the match never reports an error, and it
succeeds only for the empty directory name or a directory that lies under the cleaned
root. -/
theorem membership_of_literal_dir (R dir : String) (hne : R ≠ "")
    (hdot : filepath.Clean R ≠ ".")
    (hmeta : ∀ c ∈ (filepath.Clean R).data, doublestar.isMeta c = false) :
    ∃ b, doublestar.Match (filepath.Join R "**") dir = (b, none) ∧
      (b = true → dir = "" ∨ liesUnder (filepath.Clean R) dir) := by
  by_cases habs : filepath.IsAbs R = true
  · by_cases hroot : filepath.Clean R = "/"
    · refine ⟨_, doublestar.Match_literal _ dir []
        (by simpa using filepath.Join_stars_of_root R habs hroot) (by simp), ?_⟩
      intro hb
      rcases of_decide_eq_true hb with h | h
      · exact Or.inl (String.ext h)
      · refine Or.inr (Or.inr ?_)
        unfold isStrictlyUnder
        rw [if_pos hroot]
        simpa using h
    · refine ⟨_, membership_of_literal_root R dir habs hroot hmeta, ?_⟩
      intro hb
      rcases of_decide_eq_true hb with h | h
      · exact Or.inr (Or.inl h)
      · refine Or.inr (Or.inr ?_)
        unfold isStrictlyUnder
        rw [if_neg hroot]
        exact h
  · have hrel : filepath.IsAbs R = false := by simpa using habs
    refine ⟨_, doublestar.Match_literal _ dir _
      (filepath.Join_stars_of_rel R hne hrel hdot) hmeta, ?_⟩
    intro hb
    rcases of_decide_eq_true hb with h | h
    · exact Or.inr (Or.inl (String.ext h))
    · refine Or.inr (Or.inr ?_)
      unfold isStrictlyUnder
      by_cases hroot : filepath.Clean R = "/"
      · rw [if_pos hroot]
        rw [hroot] at h
        exact List.IsPrefix.trans (List.prefix_append ['/'] ['/']) h
      · rw [if_neg hroot]
        exact h

theorem filepath.Join_ne_empty (a b : String) (ha : a ≠ "") : Join a b ≠ "" := by
  unfold Join
  rw [if_pos ha]
  exact Clean_ne_empty _

/-- C20, counterexample: a manifest given by the relative path `package.json` has the
default root `.`, whose pattern `**` matches every directory; the dependency
`file:../bar`, which points outside of that directory, is satisfied by the candidate in
`../bar`. -/
theorem C20_outside_default_root_counterexample :
    filepath.Dir "package.json" = "." ∧
    filepath.Join (filepath.Dir "package.json") "../bar" = "../bar" ∧
    ¬ liesUnder (filepath.Dir "package.json") "../bar" ∧
    SatisfyWorskpaceDep exampleEnv (candidate "bar" "1.0.0" "../bar")
      { Name := "bar", VersionRange := "../bar", Key := "dependencies", Protocol := "file",
        FromName := "a", FromVersion := "1.0.0", FromFile := "package.json" } "" =
      (true, none) := by
  decide

/-- C20, amended: with the workspace root left unspecified, for every descriptor with
protocol `file`, `link` or `portal` whose cleaned directory
`D = filepath.Clean(filepath.Dir(dep.FromFile))` is not `.` and holds no glob
metacharacter, and whose resolved path
`filepath.Join(filepath.Dir(dep.FromFile), dep.VersionRange)` does not lie under `D`,
`SatisfyWorskpaceDep(p, dep, "")` returns, for every candidate, verdict `false` with the
name-mismatch error, with `ErrOutsideWokspace` or with the path-mismatch error. -/
theorem C20_outside_default_root_rejected (env : Env) (p : PackageJSON)
    (dep : PackageJsonDepInfo)
    (hproto : dep.Protocol = "file" ∨ dep.Protocol = "link" ∨ dep.Protocol = "portal")
    (hdot : filepath.Clean (filepath.Dir dep.FromFile) ≠ ".")
    (hmeta : ∀ c ∈ (filepath.Clean (filepath.Dir dep.FromFile)).data,
      doublestar.isMeta c = false)
    (hout : ¬ liesUnder (filepath.Clean (filepath.Dir dep.FromFile))
      (filepath.Join (filepath.Dir dep.FromFile) dep.VersionRange)) :
    SatisfyWorskpaceDep env p dep "" =
      (false, some (fmt.Errorf ErrMismatchName (": " ++ p.Name ++ "!= " ++ dep.Name))) ∨
    SatisfyWorskpaceDep env p dep "" = (false, some ErrOutsideWokspace) ∨
    SatisfyWorskpaceDep env p dep "" =
      (false, some (fmt.Errorf ErrMismatchPath
        (": Package " ++ dep.Name ++ " path does not match workspace package " ++ p.Name))) := by
  have hnw : dep.Protocol ≠ "workspace" := by
    rcases hproto with h | h | h <;> rw [h] <;> decide
  have hres : resolveWorkspaceRoot env dep "" = .ok (filepath.Dir dep.FromFile) := by
    simp [resolveWorkspaceRoot, hnw]
  by_cases hname : p.Name = dep.Name
  · obtain ⟨b, hmatch, hb⟩ := membership_of_literal_dir (filepath.Dir dep.FromFile) p.Dir
      (filepath.Dir_ne_empty _) hdot hmeta
    cases b with
    | false =>
      exact Or.inr (Or.inl (SatisfyWorskpaceDep_of_no_match env p dep "" _ hname hres hmatch))
    | true =>
      have hmem : membershipPasses (filepath.Dir dep.FromFile) p.Dir := by
        simp [membershipPasses, hmatch]
      have hne : filepath.Join (filepath.Dir dep.FromFile) dep.VersionRange ≠ p.Dir := by
        intro e
        rcases hb rfl with h | h
        · rw [h] at e
          exact filepath.Join_ne_empty _ _ (filepath.Dir_ne_empty _) e
        · rw [e] at hout
          exact hout h
      refine Or.inr (Or.inr ?_)
      rw [SatisfyWorskpaceDep_local_protocol env p dep "" _ hname hproto hres hmem, if_neg hne]
  · exact Or.inl (by simp [SatisfyWorskpaceDep, hname])

/-- Witness for C20 (amended): the dependency `file:../bar` declared in the absolute
manifest `/ws/a/package.json`, against the candidate in `/ws/bar`, and the same
dependency declared in the relative manifest `pkg/package.json`, against the candidate
in `bar`. -/
theorem C20_outside_default_root_rejected_witness :
    (SatisfyWorskpaceDep exampleEnv (candidate "bar" "1.0.0" "/ws/bar")
        { Name := "bar", VersionRange := "../bar", Key := "dependencies", Protocol := "file",
          FromName := "a", FromVersion := "1.0.0", FromFile := "/ws/a/package.json" } "" =
        (false, some (fmt.Errorf ErrMismatchName (": " ++ "bar" ++ "!= " ++ "bar"))) ∨
      SatisfyWorskpaceDep exampleEnv (candidate "bar" "1.0.0" "/ws/bar")
        { Name := "bar", VersionRange := "../bar", Key := "dependencies", Protocol := "file",
          FromName := "a", FromVersion := "1.0.0", FromFile := "/ws/a/package.json" } "" =
        (false, some ErrOutsideWokspace) ∨
      SatisfyWorskpaceDep exampleEnv (candidate "bar" "1.0.0" "/ws/bar")
        { Name := "bar", VersionRange := "../bar", Key := "dependencies", Protocol := "file",
          FromName := "a", FromVersion := "1.0.0", FromFile := "/ws/a/package.json" } "" =
        (false, some (fmt.Errorf ErrMismatchPath
          (": Package " ++ "bar" ++ " path does not match workspace package " ++ "bar")))) ∧
    (SatisfyWorskpaceDep exampleEnv (candidate "bar" "1.0.0" "bar")
        { Name := "bar", VersionRange := "../bar", Key := "dependencies", Protocol := "file",
          FromName := "a", FromVersion := "1.0.0", FromFile := "pkg/package.json" } "" =
        (false, some (fmt.Errorf ErrMismatchName (": " ++ "bar" ++ "!= " ++ "bar"))) ∨
      SatisfyWorskpaceDep exampleEnv (candidate "bar" "1.0.0" "bar")
        { Name := "bar", VersionRange := "../bar", Key := "dependencies", Protocol := "file",
          FromName := "a", FromVersion := "1.0.0", FromFile := "pkg/package.json" } "" =
        (false, some ErrOutsideWokspace) ∨
      SatisfyWorskpaceDep exampleEnv (candidate "bar" "1.0.0" "bar")
        { Name := "bar", VersionRange := "../bar", Key := "dependencies", Protocol := "file",
          FromName := "a", FromVersion := "1.0.0", FromFile := "pkg/package.json" } "" =
        (false, some (fmt.Errorf ErrMismatchPath
          (": Package " ++ "bar" ++ " path does not match workspace package " ++ "bar")))) :=
  ⟨C20_outside_default_root_rejected exampleEnv (candidate "bar" "1.0.0" "/ws/bar")
      { Name := "bar", VersionRange := "../bar", Key := "dependencies", Protocol := "file",
        FromName := "a", FromVersion := "1.0.0", FromFile := "/ws/a/package.json" }
      (by decide) (by decide) (by decide) (by decide),
   C20_outside_default_root_rejected exampleEnv (candidate "bar" "1.0.0" "bar")
      { Name := "bar", VersionRange := "../bar", Key := "dependencies", Protocol := "file",
        FromName := "a", FromVersion := "1.0.0", FromFile := "pkg/package.json" }
      (by decide) (by decide) (by decide) (by decide)⟩
